import Mathlib

/-!
# Serial command interpreter of the bus monitor firmware

A shallow embedding of `monitor-board/firmware/src/serialcli.cpp`.

* Bytes and characters are natural numbers; a C string is the list of its
  bytes before the terminating NUL.
* `cmd_buf` is a list of bytes, `cmd_tokenv` a list of optional offsets into
  `cmd_buf` (`none` is the NULL pointer), `cmd_len` an integer.
* An access outside an array has no defined result in C; the embedding returns
  `none` there, and also when a loop that need not end runs out of fuel.
* The external collaborators (`controlLoop`, `processorCanBeStepped`) are
  parameters acting on the signal state and on a hidden environment.
* The serial transport is the list of bytes written so far, and every call of
  `controlLoop` is logged together with the signal state it was entered with.
-/

namespace Buri

/-! ## Characters and the serial transport -/

/-- Bytes of a string literal. -/
def bytes (s : String) : List Nat := s.toList.map Char.toNat

/-- Line break written by `Serial.println`. -/
def crlf : List Nat := [13, 10]

/-- Digit character used by `Print::printNumber`: `c < 10 ? c + '0' : c + 'A' - 10`. -/
def digitChar (c : Nat) : Nat := if c < 10 then c + 48 else c + 65 - 10

/-- Loop of `Print::printNumber` (Arduino core): digits are produced from the
least significant one and written in front of the ones already produced,
`do { c = n % base; n /= base; *--str = digit c; } while (n);`. -/
def printNumberLoop (base : Nat) : Nat → Nat → List Nat → List Nat
  | 0, _, acc => acc
  | fuel + 1, n, acc =>
    let acc1 := digitChar (n % base) :: acc
    if n / base = 0 then acc1 else printNumberLoop base fuel (n / base) acc1

/-- Characters written by `Serial.print(n, base)` for an unsigned `n`. -/
def printNumber (n base : Nat) : List Nat := printNumberLoop base (n + 1) n []

/-! ## The C library function `strtol` -/

/-- C `isspace` in the "C" locale: space, `\t`, `\n`, `\v`, `\f`, `\r`. -/
def isspace (c : Nat) : Bool := c == 32 || (9 ≤ c && c ≤ 13)

/-- Value of an alphanumeric character as a digit, before comparing with the base. -/
def digitVal (c : Nat) : Option Nat :=
  if 48 ≤ c ∧ c ≤ 57 then some (c - 48)
  else if 97 ≤ c ∧ c ≤ 122 then some (c - 97 + 10)
  else if 65 ≤ c ∧ c ≤ 90 then some (c - 65 + 10)
  else none

/-- Value of `c` as a digit of `base`, if it is one. -/
def digitOf (base c : Nat) : Option Nat :=
  match digitVal c with
  | some d => if d < base then some d else none
  | none => none

/-- Digit loop of `strtol`: accumulates the value of the longest run of digits
and returns it with the unconsumed rest of the string. -/
def strtolDigits (base : Nat) : List Nat → Nat → Nat × List Nat
  | [], acc => (acc, [])
  | c :: cs, acc =>
    match digitOf base c with
    | some d => strtolDigits base cs (acc * base + d)
    | none => (acc, c :: cs)

/-- Largest value of a `long` of `long_bits` bits. -/
def LONG_MAX (long_bits : Nat) : Int := 2 ^ (long_bits - 1) - 1

/-- Smallest value of a `long` of `long_bits` bits. -/
def LONG_MIN (long_bits : Nat) : Int := -(2 ^ (long_bits - 1))

/-- Out of range results of `strtol` are replaced by `LONG_MAX` or `LONG_MIN`. -/
def clampLong (long_bits : Nat) (v : Int) : Int :=
  if v > LONG_MAX long_bits then LONG_MAX long_bits
  else if v < LONG_MIN long_bits then LONG_MIN long_bits
  else v

/-- Optional sign of the subject sequence of `strtol`. -/
def strtolSign : List Nat → Bool × List Nat
  | c :: r => if c = 45 then (true, r) else if c = 43 then (false, r) else (false, c :: r)
  | [] => (false, [])

/-- Optional `0x` or `0X` of the subject sequence of `strtol` in base 16; it
belongs to the subject sequence only when a hexadecimal digit follows. -/
def strtolHexMark (base : Nat) : List Nat → List Nat
  | c :: x :: d :: r =>
    if base = 16 ∧ c = 48 ∧ (x = 120 ∨ x = 88) ∧ (digitOf 16 d).isSome then d :: r
    else c :: x :: d :: r
  | s => s

/-- C `strtol(s, &end_ptr, base)` for base 10 or 16 (ISO C 7.22.1.4): white
space, an optional sign, in base 16 an optional `0x`, then the longest run of
digits. Returns the value and the string `end_ptr` points to. When no digit is
found the value is 0 and `end_ptr` is `s`. -/
def strtol (long_bits : Nat) (s : List Nat) (base : Nat) : Int × List Nat :=
  let sg := strtolSign (s.dropWhile isspace)
  let body := strtolHexMark base sg.2
  match body with
  | [] => (0, s)
  | c :: _ =>
    if (digitOf base c).isSome then
      let r := strtolDigits base body 0
      (clampLong long_bits (if sg.1 then -(r.1 : Int) else (r.1 : Int)), r.2)
    else (0, s)

/-! ## Signal state (`globals.h`) and the external collaborators -/

/-- Step request flag. -/
inductive StepState where
  | SS_NONE
  | SS_CYCLE
  | SS_INST
  deriving DecidableEq, Repr

/-- Modelled from the spec: `globals.h` is not among the sources. The fields are
the ones `serialcli.cpp` uses, named as there; section 3 of the specification
lists them as booleans and integers. The address bus values are `unsigned int`
and the data bus values `byte`, the types of the locals that snapshot them in
`performWrite` and `performRead`. -/
structure Globals where
  address_bus : Nat
  data_bus : Nat
  out_address_bus : Nat
  out_data_bus : Nat
  assert_address : Bool
  assert_data : Bool
  pull_be_low : Bool
  pull_rwbar_low : Bool
  pull_rst_low : Bool
  halt : Bool
  step_state : StepState
  deriving DecidableEq, Repr

/-- External collaborators and the integer widths of the target. `controlLoop`
and `processorCanBeStepped` are declared in `control.h`; they see the signal
state and a hidden environment of type `E`. -/
structure Board (E : Type) where
  controlLoop : E → Globals → E × Globals
  processorCanBeStepped : E → Globals → Bool
  uint_bits : Nat
  long_bits : Nat

/-- The values of the integer fields fit their C types. -/
def Globals.WellTyped (uint_bits : Nat) (g : Globals) : Prop :=
  g.address_bus < 2 ^ uint_bits ∧ g.data_bus < 2 ^ 8 ∧
  g.out_address_bus < 2 ^ uint_bits ∧ g.out_data_bus < 2 ^ 8

/-- Conversion of a `long` to an unsigned type of `w` bits. -/
def toUnsigned (w : Nat) (v : Int) : Nat := (v % 2 ^ w).toNat

/-! ## Interpreter state -/

def MAX_CMD_LEN : Nat := 31

def MAX_TOKENS : Nat := 5

/-- The value every state function returns: `{ .next = &readingCommandState }`. -/
inductive SerialState where
  | readingCommandState
  deriving DecidableEq, Repr

/-- Whole state of the interpreter: its own globals, the signal state, the
hidden environment, the bytes written to `Serial` (oldest first) and the log of
`controlLoop` calls (the signal state each call was entered with, oldest first). -/
structure Sys (E : Type) where
  cmd_buf : List Nat
  cmd_tokenv : List (Option Nat)
  cmd_len : Int
  g : Globals
  env : E
  out : List Nat
  ctl_log : List Globals

variable {E : Type}

/-- `Serial.write(b)`. -/
def Sys.write (s : Sys E) (b : Nat) : Sys E := { s with out := s.out ++ [b] }

/-- `Serial.print(str)`. -/
def Sys.print (s : Sys E) (str : List Nat) : Sys E := { s with out := s.out ++ str }

/-- `Serial.println(str)`. -/
def Sys.println (s : Sys E) (str : List Nat) : Sys E := { s with out := s.out ++ str ++ crlf }

/-- One call of `controlLoop()`. -/
def Sys.controlLoop (B : Board E) (s : Sys E) : Sys E :=
  let r := B.controlLoop s.env s.g
  { s with env := r.1, g := r.2, ctl_log := s.ctl_log ++ [s.g] }

/-- Array store `a[i] = v`; `none` outside the array. -/
def setAt {α : Type} (l : List α) (i : Nat) (v : α) : Option (List α) :=
  if i < l.length then some (l.set i v) else none

/-- Array store with an `int` index. -/
def setAtInt {α : Type} (l : List α) (i : Int) (v : α) : Option (List α) :=
  if 0 ≤ i then setAt l i.toNat v else none

/-- The C string a list starts with: the bytes before the first NUL; `none`
when there is no NUL. -/
def cstrOf : List Nat → Option (List Nat)
  | [] => none
  | c :: cs => if c = 0 then some [] else (cstrOf cs).map (fun w => c :: w)

/-- The C string at offset `p` of a buffer. -/
def cstr (buf : List Nat) (p : Nat) : Option (List Nat) := cstrOf (buf.drop p)

/-- The C string a token pointer points to; `none` for NULL or outside the buffer. -/
def tokenStr (s : Sys E) (i : Nat) : Option (List Nat) :=
  match s.cmd_tokenv[i]? with
  | some (some p) => cstr s.cmd_buf p
  | _ => none

/-! ## The program -/

/-- Source: `startSerialPrompt`. -/
def startSerialPrompt (s : Sys E) : Option (SerialState × Sys E) :=
  match setAt s.cmd_buf 0 0 with
  | none => none
  | some buf =>
    some (SerialState.readingCommandState,
      ({ s with cmd_buf := buf, cmd_len := 0 } : Sys E).print (bytes "> "))

/-- Source: `printHelp`. -/
def printHelp (s : Sys E) : Sys E :=
  (((((((((s.println (bytes "?           - show brief help message")).println
    (bytes "p[rint]     - print current address/data bus")).println
    (bytes "h[alt]      - toggle halt state")).println
    (bytes "c[ycle] [n] - single cycle n times")).println
    (bytes "s[tep] [n]  - single step n times")).println
    (bytes "reset       - toggle ~RST line")).println
    (bytes "b[e]        - toggle BE line")).println
    (bytes "")).println
    (bytes "Specify decimal numbers with no prefix.")).println
    (bytes "Specify hexadecimal numbers with $ prefix.")

/-- First inner loop of `tokenizeCmdBuf`: skip to the next non-space char.
Returns the new `ch_idx`. -/
def skipSpaces (buf : List Nat) (cmd_len : Int) : Nat → Nat → Option Nat
  | 0, _ => none
  | fuel + 1, ch_idx =>
    if (ch_idx : Int) < cmd_len then
      match buf[ch_idx]? with
      | none => none
      | some c =>
        if c ≠ 0 ∧ c = 32 then skipSpaces buf cmd_len fuel (ch_idx + 1) else some ch_idx
    else some ch_idx

/-- Second inner loop of `tokenizeCmdBuf`: advance to the first space character
or the end of the line. Returns the new `ch_idx`. -/
def scanToken (buf : List Nat) (cmd_len : Int) : Nat → Nat → Option Nat
  | 0, _ => none
  | fuel + 1, ch_idx =>
    if (ch_idx : Int) < cmd_len then
      match buf[ch_idx]? with
      | none => none
      | some c =>
        if c ≠ 0 ∧ c ≠ 32 then scanToken buf cmd_len fuel (ch_idx + 1) else some ch_idx
    else some ch_idx

/-- The test `(ch_idx == cmd_len) || (cmd_buf[ch_idx] == 0)` that ends the scan. -/
def atLineEnd (buf : List Nat) (cmd_len : Int) (ch_idx : Nat) : Option Bool :=
  if (ch_idx : Int) = cmd_len then some true
  else match buf[ch_idx]? with
    | none => none
    | some c => some (decide (c = 0))

/-- The `while` loop of `tokenizeCmdBuf`. Every pass that does not leave the
loop advances `next_tokenv_idx`, so `MAX_TOKENS + 1` passes of fuel are never
used up; an inner loop reads `cmd_buf` before each step, so it takes at most
`buf.length` steps. Returns the buffer and the token vector. -/
def tokenizeLoop (cmd_len : Int) :
    Nat → Nat → Nat → List Nat → List (Option Nat) → Option (List Nat × List (Option Nat))
  | 0, _, _, _, _ => none
  | fuel + 1, next_tokenv_idx, ch_idx, buf, tv =>
    if next_tokenv_idx < MAX_TOKENS ∧ (ch_idx : Int) < cmd_len then
      match skipSpaces buf cmd_len (buf.length + 1) ch_idx with
      | none => none
      | some i1 =>
        match atLineEnd buf cmd_len i1 with
        | none => none
        | some true => some (buf, tv)
        | some false =>
          match setAt tv next_tokenv_idx (some i1) with
          | none => none
          | some tv1 =>
            match setAt tv1 (next_tokenv_idx + 1) none with
            | none => none
            | some tv2 =>
              match scanToken buf cmd_len (buf.length + 1) i1 with
              | none => none
              | some i2 =>
                match (if (i2 : Int) < cmd_len then setAt buf i2 0 else some buf) with
                | none => none
                | some buf1 =>
                  tokenizeLoop cmd_len fuel (next_tokenv_idx + 1) (i2 + 1) buf1 tv2
    else some (buf, tv)

/-- Source: `tokenizeCmdBuf`. -/
def tokenizeCmdBuf (s : Sys E) : Option (Sys E) :=
  match setAt s.cmd_tokenv 0 none with
  | none => none
  | some tv0 =>
    match tokenizeLoop s.cmd_len (MAX_TOKENS + 1) 0 0 s.cmd_buf tv0 with
    | none => none
    | some (buf, tv) =>
      match setAt tv MAX_TOKENS none with
      | none => none
      | some tv1 => some { s with cmd_buf := buf, cmd_tokenv := tv1, cmd_len := 0 }

/-- The char `a[i]` of a C string; the terminating NUL at its end. -/
def charAt (a : List Nat) (i : Nat) : Nat := a.getD i 0

/-- Source: `strprefixeq`. `strcmp` is 0 exactly for equal strings. -/
def strprefixeq (a b : List Nat) : Bool :=
  if charAt a 0 ≠ 0 ∧ charAt a 0 = charAt b 0 ∧ charAt a 1 = 0 then true
  else decide (a = b)

/-- Source: `parseLong`. Returns the result and the value stored through `l`. -/
def parseLong (long_bits : Nat) (s : List Nat) : Bool × Int :=
  let bs : Nat × List Nat := match s with
    | c :: r => if c = 36 then (16, r) else (10, c :: r)
    | [] => (10, [])
  let r := strtol long_bits bs.2 bs.1
  (decide (bs.2 ≠ []) && decide (r.2 = []), r.1)

/-- The `while(step_state != SS_NONE)` loop of `performStepCommand`. It ends only
when `controlLoop` clears the flag or the processor cannot be stepped, so it
runs on fuel. -/
def stepWhile (B : Board E) : Nat → Sys E → Option (Sys E)
  | 0, _ => none
  | fuel + 1, s =>
    if s.g.step_state ≠ StepState.SS_NONE then
      let s1 := s.controlLoop B
      if !B.processorCanBeStepped s1.env s1.g then
        let s2 := s1.println (bytes "aborting: processor in incorrect state for stepping")
        stepWhile B fuel { s2 with g := { s2.g with step_state := StepState.SS_NONE } }
      else stepWhile B fuel s1
    else some s

/-- The `for(long i=0; i<n; ++i)` loop of `performStepCommand`, by recursion on
the number of passes left. -/
def stepFor (B : Board E) (fuel : Nat) (is_inst_step : Bool) : Nat → Sys E → Option (Sys E)
  | 0, s => some s
  | k + 1, s =>
    let ss := if is_inst_step then StepState.SS_INST else StepState.SS_CYCLE
    match stepWhile B fuel { s with g := { s.g with step_state := ss } } with
    | none => none
    | some s1 => stepFor B fuel is_inst_step k s1

/-- Source: `performStepCommand`. `parseLong` stores through `&n` whether or
not it succeeds. -/
def performStepCommand (B : Board E) (fuel : Nat) (is_inst_step : Bool) (s : Sys E) :
    Option (Sys E) :=
  match s.cmd_tokenv[1]? with
  | none => none
  | some none => stepFor B fuel is_inst_step 1 s
  | some (some p) =>
    match cstr s.cmd_buf p with
    | none => none
    | some arg1 =>
      let r := parseLong B.long_bits arg1
      let s1 := if !r.1 then (s.print (bytes "invalid number: ")).println arg1 else s
      stepFor B fuel is_inst_step r.2.toNat s1

/-- Source: `performAssertAddress`. -/
def performAssertAddress (B : Board E) (s : Sys E) : Option (Sys E) :=
  match tokenStr s 1 with
  | none => none
  | some arg1 =>
    if arg1 ≠ bytes "off" then
      let r := parseLong B.long_bits arg1
      let s1 := if !r.1 then (s.print (bytes "invalid address: ")).println arg1 else s
      some { s1 with g := { s1.g with
        assert_address := true, out_address_bus := toUnsigned B.uint_bits r.2 } }
    else some { s with g := { s.g with assert_address := false } }

/-- Source: `performAssertData`. -/
def performAssertData (B : Board E) (s : Sys E) : Option (Sys E) :=
  match tokenStr s 1 with
  | none => none
  | some arg1 =>
    if arg1 ≠ bytes "off" then
      let r := parseLong B.long_bits arg1
      let s1 := if !r.1 then (s.print (bytes "invalid data: ")).println arg1 else s
      some { s1 with g := { s1.g with
        assert_data := true, out_data_bus := toUnsigned 8 r.2 } }
    else some { s with g := { s.g with assert_data := false } }

/-- The "Restore state" block of `performWrite` and `performRead`. -/
def restoreState (s : Sys E) (old_pull_be_low old_pull_rwbar_low old_aa old_ad : Bool)
    (old_a old_d : Nat) : Sys E :=
  { s with g := { s.g with
      pull_be_low := old_pull_be_low, pull_rwbar_low := old_pull_rwbar_low,
      assert_address := old_aa, assert_data := old_ad,
      out_address_bus := old_a, out_data_bus := old_d } }

/-- Source: `performWrite`. The snapshot locals `old_a`, `old_d` are an
`unsigned int` and a `byte`. -/
def performWrite (B : Board E) (s : Sys E) : Option (Sys E) :=
  match tokenStr s 1 with
  | none => none
  | some arg1 =>
    let old_pull_be_low := s.g.pull_be_low
    let old_pull_rwbar_low := s.g.pull_rwbar_low
    let old_aa := s.g.assert_address
    let old_ad := s.g.assert_data
    let old_a := s.g.out_address_bus % 2 ^ B.uint_bits
    let old_d := s.g.out_data_bus % 2 ^ 8
    let r1 := parseLong B.long_bits arg1
    if !r1.1 then some ((s.print (bytes "invalid address: ")).println arg1)
    else
      let s1 : Sys E := { s with g := { s.g with
        out_address_bus := toUnsigned B.uint_bits r1.2 } }
      match tokenStr s1 2 with
      | none => none
      | some arg2 =>
        let r2 := parseLong B.long_bits arg2
        if !r2.1 then some ((s1.print (bytes "invalid data: ")).println arg1)
        else
          let s2 : Sys E := { s1 with g := { s1.g with out_data_bus := toUnsigned 8 r2.2 } }
          -- Drop BE
          let s3 := Sys.controlLoop B { s2 with g := { s2.g with pull_be_low := true } }
          -- Assert address
          let s4 := Sys.controlLoop B { s3 with g := { s3.g with assert_address := true } }
          -- Drop R/W~
          let s5 := Sys.controlLoop B { s4 with g := { s4.g with pull_rwbar_low := true } }
          -- Assert data
          let s6 := Sys.controlLoop B { s5 with g := { s5.g with assert_data := true } }
          -- Raise R/W~
          let s7 := Sys.controlLoop B { s6 with g := { s6.g with pull_rwbar_low := false } }
          some (restoreState s7 old_pull_be_low old_pull_rwbar_low old_aa old_ad old_a old_d)

/-- Source: `performRead`. The sampled `d` is a `byte`. -/
def performRead (B : Board E) (s : Sys E) : Option (Sys E) :=
  match tokenStr s 1 with
  | none => none
  | some arg1 =>
    let old_pull_be_low := s.g.pull_be_low
    let old_pull_rwbar_low := s.g.pull_rwbar_low
    let old_aa := s.g.assert_address
    let old_ad := s.g.assert_data
    let old_a := s.g.out_address_bus % 2 ^ B.uint_bits
    let old_d := s.g.out_data_bus % 2 ^ 8
    let r1 := parseLong B.long_bits arg1
    if !r1.1 then some ((s.print (bytes "invalid address: ")).println arg1)
    else
      let s1 : Sys E := { s with g := { s.g with
        out_address_bus := toUnsigned B.uint_bits r1.2 } }
      -- Drop BE
      let s2 := Sys.controlLoop B { s1 with g := { s1.g with pull_be_low := true } }
      -- Assert address
      let s3 := Sys.controlLoop B { s2 with g := { s2.g with assert_address := true } }
      -- Record data bus after one control loop
      let s4 := Sys.controlLoop B s3
      let d := s4.g.data_bus % 2 ^ 8
      let s5 := restoreState s4 old_pull_be_low old_pull_rwbar_low old_aa old_ad old_a old_d
      some (((s5.print (bytes "D: ")).print (printNumber d 16)).println (bytes ""))

/-- The token counting loop of `processCommand`:
`for(; (cmd_tokenv[n_tokens] != NULL) && (n_tokens < MAX_TOKENS); ++n_tokens)`.
It stops at `n_tokens = MAX_TOKENS` at the latest, within `MAX_TOKENS + 1` tests. -/
def countTokens (tv : List (Option Nat)) : Nat → Nat → Option Nat
  | 0, _ => none
  | fuel + 1, n_tokens =>
    match tv[n_tokens]? with
    | none => none
    | some none => some n_tokens
    | some (some _) =>
      if n_tokens < MAX_TOKENS then countTokens tv fuel (n_tokens + 1) else some n_tokens

/-- The `if ... else if` chain of `processCommand` for at least one token. -/
def dispatch (B : Board E) (fuel : Nat) (cmd : List Nat) (n_tokens : Nat) (s : Sys E) :
    Option (Sys E) :=
  if strprefixeq cmd (bytes "?") && n_tokens == 1 then some (printHelp s)
  else if strprefixeq cmd (bytes "halt") && n_tokens == 1 then
    let s1 : Sys E := { s with g := { s.g with halt := !s.g.halt } }
    some ((s1.print (bytes "halt ")).println (if s1.g.halt then bytes "on" else bytes "off"))
  else if strprefixeq cmd (bytes "print") && n_tokens == 1 then
    some (((((s.print (bytes "A: ")).print (printNumber s.g.address_bus 16)).print
      (bytes " D: ")).print (printNumber s.g.data_bus 16)).println (bytes ""))
  else if strprefixeq cmd (bytes "cycle") && decide (n_tokens ≤ 2) then
    performStepCommand B fuel false s
  else if strprefixeq cmd (bytes "step") && decide (n_tokens ≤ 2) then
    performStepCommand B fuel true s
  else if decide (cmd = bytes "reset") && n_tokens == 1 then
    let s1 : Sys E := { s with g := { s.g with pull_rst_low := !s.g.pull_rst_low } }
    some ((s1.print (bytes "~rst ")).println
      (if s1.g.pull_rst_low then bytes "low" else bytes "high"))
  else if strprefixeq cmd (bytes "be") && n_tokens == 1 then
    let s1 : Sys E := { s with g := { s.g with pull_be_low := !s.g.pull_be_low } }
    some ((s1.print (bytes "be ")).println
      (if s1.g.pull_be_low then bytes "low" else bytes "high"))
  else if strprefixeq cmd (bytes "rw") && n_tokens == 1 then
    let s1 : Sys E := { s with g := { s.g with pull_rwbar_low := !s.g.pull_rwbar_low } }
    some ((s1.print (bytes "rwbar ")).println
      (if s1.g.pull_rwbar_low then bytes "low" else bytes "high"))
  else if decide (cmd = bytes "addr") && n_tokens == 2 then performAssertAddress B s
  else if decide (cmd = bytes "data") && n_tokens == 2 then performAssertData B s
  else if strprefixeq cmd (bytes "write") && n_tokens == 3 then performWrite B s
  else if strprefixeq cmd (bytes "read") && n_tokens == 2 then performRead B s
  else some (printHelp (s.println (bytes "unknown command")))

/-- Source: `processCommand`. -/
def processCommand (B : Board E) (fuel : Nat) (s0 : Sys E) : Option (SerialState × Sys E) :=
  match tokenizeCmdBuf s0 with
  | none => none
  | some s =>
    match countTokens s.cmd_tokenv (MAX_TOKENS + 1) 0 with
    | none => none
    | some n_tokens =>
      let body : Option (Sys E) :=
        if n_tokens = 0 then some (printHelp s)
        else match tokenStr s 0 with
          | none => none
          | some cmd => dispatch B fuel cmd n_tokens s
      match body with
      | none => none
      | some s1 => startSerialPrompt s1

/-- Source: `readingCommandState`; `ch` is a byte. -/
def readingCommandState (B : Board E) (fuel : Nat) (s : Sys E) (ch : Nat) :
    Option (SerialState × Sys E) :=
  if ch = 8 ∨ ch = 127 then
    if s.cmd_len > 0 then
      let s1 := ((s.write 8).write 32).write 8
      match setAtInt s1.cmd_buf (s1.cmd_len - 1) 0 with
      | none => none
      | some buf =>
        some (SerialState.readingCommandState,
          { s1 with cmd_len := s1.cmd_len - 1, cmd_buf := buf })
    else some (SerialState.readingCommandState, s.write 7)
  else if ch = 10 ∨ ch = 13 then
    processCommand B fuel (s.println (bytes ""))
  else if ch < 0x20 then some (SerialState.readingCommandState, s.write 7)
  else if s.cmd_len < MAX_CMD_LEN then
    match setAtInt s.cmd_buf s.cmd_len ch with
    | none => none
    | some buf1 =>
      match setAtInt buf1 (s.cmd_len + 1) 0 with
      | none => none
      | some buf2 =>
        some (SerialState.readingCommandState,
          ({ s with cmd_buf := buf2, cmd_len := s.cmd_len + 1 } : Sys E).write ch)
  else some (SerialState.readingCommandState, s.write 7)

/-- Feed a sequence of input bytes to the state machine, one at a time. With a
single state, the next state function is always `readingCommandState`. -/
def feed (B : Board E) (fuel : Nat) : Sys E → List Nat → Option (Sys E)
  | s, [] => some s
  | s, ch :: rest =>
    match readingCommandState B fuel s ch with
    | none => none
    | some (_, s1) => feed B fuel s1 rest

/-! ## Specification side definitions -/

/-- Maximal runs of non-space bytes of a line, in order: skip spaces, take the
longest run without a space, continue behind it. At most one run is produced per
unit of fuel. -/
def runsFuel : Nat → List Nat → List (List Nat)
  | 0, _ => []
  | fuel + 1, l =>
    match l.dropWhile (fun c => c == 32) with
    | [] => []
    | c :: cs =>
      (c :: cs).takeWhile (fun c => c != 32) ::
        runsFuel fuel ((c :: cs).dropWhile (fun c => c != 32))

/-- Maximal runs of non-space bytes of a line; a line has at most as many runs
as bytes. -/
def runs (l : List Nat) : List (List Nat) := runsFuel l.length l

/-- Boot state for a line typed at the prompt: `line` in `cmd_buf` followed by
NULs, stale pointers in the token vector. -/
def sysOfLine (e : E) (g : Globals) (line : List Nat) : Sys E :=
  { cmd_buf := line ++ List.replicate (32 - line.length) 0,
    cmd_tokenv := List.replicate 6 (some 7),
    cmd_len := line.length, g := g, env := e, out := [], ctl_log := [] }

/-- Signal state after power up: everything zero. -/
def Globals.zero : Globals :=
  { address_bus := 0, data_bus := 0, out_address_bus := 0, out_data_bus := 0,
    assert_address := false, assert_data := false, pull_be_low := false,
    pull_rwbar_low := false, pull_rst_low := false, halt := false,
    step_state := StepState.SS_NONE }

/-- A board whose `controlLoop` completes a step at once and reports `d` on the
data bus, with 16 bit `unsigned int` and 32 bit `long`. -/
def stubBoard (d : Nat) : Board Unit :=
  { controlLoop := fun e g => (e, { g with data_bus := d, step_state := StepState.SS_NONE }),
    processorCanBeStepped := fun _ _ => true,
    uint_bits := 16, long_bits := 32 }

/-- The six fields a bus transaction drives have the same values in `g'` as in `g`. -/
def Globals.sameDrive (g g' : Globals) : Prop :=
  g'.pull_be_low = g.pull_be_low ∧ g'.pull_rwbar_low = g.pull_rwbar_low ∧
  g'.assert_address = g.assert_address ∧ g'.assert_data = g.assert_data ∧
  g'.out_address_bus = g.out_address_bus ∧ g'.out_data_bus = g.out_data_bus

/-- Uppercase hexadecimal digits of `n`, without leading zeros. -/
def hexUpper (n : Nat) : List Nat := ((Nat.toDigits 16 n).map Char.toUpper).map Char.toNat

/-- A board whose `controlLoop` changes every field a transaction drives, and
the observed data bus, on each call. -/
def scrambleBoard : Board Nat :=
  { controlLoop := fun e g => (e + 1, { g with
      pull_be_low := !g.pull_be_low, pull_rwbar_low := !g.pull_rwbar_low,
      assert_address := !g.assert_address, assert_data := !g.assert_data,
      out_address_bus := (g.out_address_bus + e + 1) % 2 ^ 16,
      out_data_bus := (g.out_data_bus + e + 1) % 2 ^ 8,
      data_bus := (g.out_address_bus + e) % 2 ^ 8 }),
    processorCanBeStepped := fun _ _ => false,
    uint_bits := 16, long_bits := 32 }

/-- A signal state with a standing halt and an asserted address. -/
def busyGlobals : Globals :=
  { Globals.zero with out_address_bus := 0x1234, out_data_bus := 0x56,
                      assert_address := true, halt := true }

/-- State after tokenizing `read $10`. -/
def sysRead (e : E) (g : Globals) : Sys E :=
  { cmd_buf := bytes "read" ++ [0] ++ bytes "$10" ++ List.replicate 24 0,
    cmd_tokenv := [some 0, some 5, none, some 7, some 7, none],
    cmd_len := 0, g := g, env := e, out := [], ctl_log := [] }

/-- State after tokenizing `write 100 255`. -/
def sysWrite (e : E) (g : Globals) : Sys E :=
  { cmd_buf := bytes "write" ++ [0] ++ bytes "100" ++ [0] ++ bytes "255" ++ List.replicate 19 0,
    cmd_tokenv := [some 0, some 6, some 10, none, some 7, none],
    cmd_len := 0, g := g, env := e, out := [], ctl_log := [] }

/-- State after tokenizing `write 100 FF`. -/
def sysWriteBad (e : E) (g : Globals) : Sys E :=
  { cmd_buf := bytes "write" ++ [0] ++ bytes "100" ++ [0] ++ bytes "FF" ++ List.replicate 20 0,
    cmd_tokenv := [some 0, some 6, some 10, none, some 7, none],
    cmd_len := 0, g := g, env := e, out := [], ctl_log := [] }

/-- State during editing: `line` typed so far, NUL behind it. -/
def sysEditing (e : E) (line : List Nat) : Sys E := sysOfLine e Globals.zero line

/-- Decimal digit characters `0`..`9`. -/
def isDecDigit (c : Nat) : Bool := 48 ≤ c && c ≤ 57

/-- Hexadecimal digit characters in either letter case. -/
def isHexDigit (c : Nat) : Bool :=
  (48 ≤ c && c ≤ 57) || (97 ≤ c && c ≤ 102) || (65 ≤ c && c ≤ 70)

/-- Digit characters of a base, 16 or 10. -/
def isBaseDigit (base c : Nat) : Bool := if base = 16 then isHexDigit c else isDecDigit c

/-- Value of a digit character: `0`..`9` are 0..9, `A`..`F` and `a`..`f` are 10..15. -/
def digitValue (c : Nat) : Nat := if c ≤ 57 then c - 48 else if c ≤ 70 then c - 55 else c - 87

/-- Value in `base` of a string of digit characters, most significant first. -/
def numeral (base : Nat) (ds : List Nat) : Nat :=
  Nat.ofDigits base ((ds.map digitValue).reverse)

/-- A string without its leading sign character, if it has one. -/
def dropSign : List Nat → List Nat
  | c :: r => if c = 45 ∨ c = 43 then r else c :: r
  | [] => []

/-- A string without its leading `0x` or `0X`, if it has one. -/
def dropHexMark : List Nat → List Nat
  | c :: x :: r => if c = 48 ∧ (x = 120 ∨ x = 88) then r else c :: x :: r
  | s => s

/-- Strings of the form: white space, an optional sign, in base 16 an optional
`0x`, then at least one digit of the base and nothing else. -/
def isNumeral (base : Nat) (s : List Nat) : Bool :=
  let t := dropSign (s.dropWhile isspace)
  let u := if base = 16 then dropHexMark t else t
  !u.isEmpty && u.all (isBaseDigit base)

/-- Tokens `parseLong` is to accept: after `$` a numeral in base 16, otherwise
a numeral in base 10. -/
def accepted : List Nat → Bool
  | c :: r => if c = 36 then isNumeral 16 r else isNumeral 10 (c :: r)
  | [] => false

/-- Prefix-or-exact rule of the dispatcher in the words of the specification:
the typed token equals the command word, or it is exactly one character long
and that character is the first one of the word. -/
def matchesWord (a b : List Nat) : Bool :=
  decide (a = b) || (decide (a.length = 1) && decide (a.head? = b.head?))

/-- A row of the command table of the specification: the command word, whether
it is matched exactly only, and the least and largest token count. -/
structure CommandRow where
  word : List Nat
  exactOnly : Bool
  minTokens : Nat
  maxTokens : Nat

/-- The command table of section 4.3 of the specification. -/
def commandTable : List CommandRow :=
  [ ⟨bytes "?", false, 1, 1⟩, ⟨bytes "halt", false, 1, 1⟩, ⟨bytes "print", false, 1, 1⟩,
    ⟨bytes "cycle", false, 1, 2⟩, ⟨bytes "step", false, 1, 2⟩, ⟨bytes "reset", true, 1, 1⟩,
    ⟨bytes "be", false, 1, 1⟩, ⟨bytes "rw", false, 1, 1⟩, ⟨bytes "addr", true, 2, 2⟩,
    ⟨bytes "data", true, 2, 2⟩, ⟨bytes "write", false, 3, 3⟩, ⟨bytes "read", false, 2, 2⟩ ]

/-- A row applies to token 0 and a token count: the name matches under the
row's rule and the count is inside the row's arity. -/
def CommandRow.applies (r : CommandRow) (cmd : List Nat) (n : Nat) : Bool :=
  (if r.exactOnly then decide (cmd = r.word) else matchesWord cmd r.word) &&
    decide (r.minTokens ≤ n) && decide (n ≤ r.maxTokens)

/-- What `printHelp` writes. -/
def helpText : List Nat :=
  bytes "?           - show brief help message" ++ crlf ++
  bytes "p[rint]     - print current address/data bus" ++ crlf ++
  bytes "h[alt]      - toggle halt state" ++ crlf ++
  bytes "c[ycle] [n] - single cycle n times" ++ crlf ++
  bytes "s[tep] [n]  - single step n times" ++ crlf ++
  bytes "reset       - toggle ~RST line" ++ crlf ++
  bytes "b[e]        - toggle BE line" ++ crlf ++
  crlf ++
  bytes "Specify decimal numbers with no prefix." ++ crlf ++
  bytes "Specify hexadecimal numbers with $ prefix." ++ crlf

/-- The four toggle commands. -/
inductive Toggle where
  | halt
  | reset
  | be
  | rw
  deriving DecidableEq, Repr

/-- The lines that name a toggle command. -/
def Toggle.words : Toggle → List (List Nat)
  | .halt => [bytes "halt", bytes "h"]
  | .reset => [bytes "reset"]
  | .be => [bytes "be", bytes "b"]
  | .rw => [bytes "rw", bytes "r"]

/-- The signal state with the flag of a toggle command negated. -/
def Toggle.flip : Toggle → Globals → Globals
  | .halt, g => { g with halt := !g.halt }
  | .reset, g => { g with pull_rst_low := !g.pull_rst_low }
  | .be, g => { g with pull_be_low := !g.pull_be_low }
  | .rw, g => { g with pull_rwbar_low := !g.pull_rwbar_low }

/-- The report of a toggle command on a signal state: the flag's value there. -/
def Toggle.report : Toggle → Globals → List Nat
  | .halt, g => bytes "halt " ++ (if g.halt then bytes "on" else bytes "off")
  | .reset, g => bytes "~rst " ++ (if g.pull_rst_low then bytes "low" else bytes "high")
  | .be, g => bytes "be " ++ (if g.pull_be_low then bytes "low" else bytes "high")
  | .rw, g => bytes "rwbar " ++ (if g.pull_rwbar_low then bytes "low" else bytes "high")

/-- The twelve conditions `processCommand` tests for at least one token, in the
order of the source. -/
def commandConds (cmd : List Nat) (n_tokens : Nat) : List Bool :=
  [ strprefixeq cmd (bytes "?") && n_tokens == 1,
    strprefixeq cmd (bytes "halt") && n_tokens == 1,
    strprefixeq cmd (bytes "print") && n_tokens == 1,
    strprefixeq cmd (bytes "cycle") && decide (n_tokens ≤ 2),
    strprefixeq cmd (bytes "step") && decide (n_tokens ≤ 2),
    decide (cmd = bytes "reset") && n_tokens == 1,
    strprefixeq cmd (bytes "be") && n_tokens == 1,
    strprefixeq cmd (bytes "rw") && n_tokens == 1,
    decide (cmd = bytes "addr") && n_tokens == 2,
    decide (cmd = bytes "data") && n_tokens == 2,
    strprefixeq cmd (bytes "write") && n_tokens == 3,
    strprefixeq cmd (bytes "read") && n_tokens == 2 ]

/-- The first characters of the twelve command words, in the order of the source. -/
def commandInitials : List Nat := [63, 104, 112, 99, 115, 114, 98, 114, 97, 100, 119, 114]

/-- The action of the first pair whose condition holds, `d` when none does: the
shape of an `if ... else if ... else` chain. -/
def firstMatch {α : Type} : List (Bool × α) → α → α
  | [], d => d
  | (c, a) :: rest, d => if c then a else firstMatch rest d

/-- The twelve actions of `processCommand`, in the order of the source. -/
def commandActions (B : Board E) (fuel : Nat) (s : Sys E) : List (Option (Sys E)) :=
  [ some (printHelp s),
    (let s1 : Sys E := { s with g := { s.g with halt := !s.g.halt } }
     some ((s1.print (bytes "halt ")).println (if s1.g.halt then bytes "on" else bytes "off"))),
    some (((((s.print (bytes "A: ")).print (printNumber s.g.address_bus 16)).print
      (bytes " D: ")).print (printNumber s.g.data_bus 16)).println (bytes "")),
    performStepCommand B fuel false s,
    performStepCommand B fuel true s,
    (let s1 : Sys E := { s with g := { s.g with pull_rst_low := !s.g.pull_rst_low } }
     some ((s1.print (bytes "~rst ")).println
       (if s1.g.pull_rst_low then bytes "low" else bytes "high"))),
    (let s1 : Sys E := { s with g := { s.g with pull_be_low := !s.g.pull_be_low } }
     some ((s1.print (bytes "be ")).println
       (if s1.g.pull_be_low then bytes "low" else bytes "high"))),
    (let s1 : Sys E := { s with g := { s.g with pull_rwbar_low := !s.g.pull_rwbar_low } }
     some ((s1.print (bytes "rwbar ")).println
       (if s1.g.pull_rwbar_low then bytes "low" else bytes "high"))),
    performAssertAddress B s,
    performAssertData B s,
    performWrite B s,
    performRead B s ]

/-- A signal state with output values set and nothing asserted. -/
def idleGlobals : Globals :=
  { Globals.zero with out_address_bus := 0x1234, out_data_bus := 0x56 }

/-- A board whose processor can never be stepped and whose `controlLoop`
leaves the signal state as it is. -/
def haltedBoard : Board Unit :=
  { controlLoop := fun e g => (e, g),
    processorCanBeStepped := fun _ _ => false,
    uint_bits := 16, long_bits := 32 }

/-- The line `performStepCommand` prints when the processor cannot be stepped. -/
def abortLine : List Nat :=
  bytes "aborting: processor in incorrect state for stepping" ++ crlf

/-- The bytes `l` written `n` times. -/
def repeatBytes : Nat → List Nat → List Nat
  | 0, _ => []
  | n + 1, l => l ++ repeatBytes n l

/-- The state holds a command line: `cmd_buf` has its 32 bytes and `cmd_tokenv`
its 6 entries, and the buffer starts with `cmd_len` bytes that are not NUL,
followed by a NUL. -/
def HoldsLine (s : Sys E) : Prop :=
  s.cmd_buf.length = 32 ∧ s.cmd_tokenv.length = 6 ∧
  ∃ line rest, s.cmd_buf = line ++ 0 :: rest ∧ s.cmd_len = (line.length : Int) ∧
    ∀ c ∈ line, c ≠ 0

/-! # Theorems -/

/-! ## Bus transactions -/

theorem tokenStr_g (s : Sys E) (g : Globals) (i : Nat) :
    tokenStr { s with g := g } i = tokenStr s i := rfl

set_option maxRecDepth 100000 in
theorem printNumber_byte : ∀ d, d < 256 → printNumber d 16 = hexUpper d := by
  decide

/-- C1: a read whose address parses and a write whose address and data parse
return, whatever `controlLoop` does, with byte-enable-pull, read/write-bar-pull,
address-assert, data-assert, output address and output data as they were before. -/
theorem transaction_restores (B : Board E) (s : Sys E)
    (hwt : s.g.WellTyped B.uint_bits) :
    (∀ arg1, tokenStr s 1 = some arg1 → (parseLong B.long_bits arg1).1 = true →
      ∃ s', performRead B s = some s' ∧ s.g.sameDrive s'.g) ∧
    (∀ arg1 arg2, tokenStr s 1 = some arg1 → tokenStr s 2 = some arg2 →
      (parseLong B.long_bits arg1).1 = true → (parseLong B.long_bits arg2).1 = true →
      ∃ s', performWrite B s = some s' ∧ s.g.sameDrive s'.g) := by
  obtain ⟨-, -, ha, hd⟩ := hwt
  have hd' : s.g.out_data_bus < 256 := by simpa using hd
  constructor
  · intro arg1 h1 hp1
    simp [performRead, h1, hp1, restoreState, Globals.sameDrive, Sys.print, Sys.println,
      Nat.mod_eq_of_lt ha, Nat.mod_eq_of_lt hd']
  · intro arg1 arg2 h1 h2 hp1 hp2
    simp [performWrite, h1, h2, hp1, hp2, tokenStr_g, restoreState, Globals.sameDrive,
      Nat.mod_eq_of_lt ha, Nat.mod_eq_of_lt hd']

theorem transaction_restores_witness :
    busyGlobals.WellTyped 16 ∧
    (∃ s', performRead scrambleBoard (sysRead 0 busyGlobals) = some s' ∧
      busyGlobals.sameDrive s'.g) ∧
    (∃ s', performWrite scrambleBoard (sysWrite 0 busyGlobals) = some s' ∧
      busyGlobals.sameDrive s'.g) :=
  have hwt : busyGlobals.WellTyped 16 := by unfold Globals.WellTyped; decide
  ⟨hwt,
   (transaction_restores scrambleBoard (sysRead 0 busyGlobals) hwt).1 (bytes "$10")
     (by decide) (by decide),
   (transaction_restores scrambleBoard (sysWrite 0 busyGlobals) hwt).2 (bytes "100")
     (bytes "255") (by decide) (by decide) (by decide) (by decide)⟩

/-- C2: on `write 100 FF` the data token does not parse, and `performWrite`
returns with the output address changed from 0 to 100 (`controlLoop` is not
called, the other driven fields keep their values). -/
theorem performWrite_invalid_data_keeps_new_address :
    (sysWriteBad () Globals.zero).g.out_address_bus = 0 ∧
    (parseLong 32 (bytes "100")).1 = true ∧ (parseLong 32 (bytes "FF")).1 = false ∧
    (performWrite (stubBoard 0) (sysWriteBad () Globals.zero)).map
      (fun s => (s.g.out_address_bus, s.g.out_data_bus, s.ctl_log.length)) = some (100, 0, 0) := by
  decide

/-- C3: a write whose address and data parse calls `controlLoop` exactly five
times. The first call sees the parsed address and data as outputs and
byte-enable pulled low; each later call sees what the call before left, with one
more step applied: address asserted, read/write-bar pulled low, data asserted,
read/write-bar released. The snapshot is restored onto what the fifth call left. -/
theorem performWrite_sequence (B : Board E) (s : Sys E) (arg1 arg2 : List Nat)
    (h1 : tokenStr s 1 = some arg1) (h2 : tokenStr s 2 = some arg2)
    (hp1 : (parseLong B.long_bits arg1).1 = true)
    (hp2 : (parseLong B.long_bits arg2).1 = true) :
    let a := toUnsigned B.uint_bits (parseLong B.long_bits arg1).2
    let d := toUnsigned 8 (parseLong B.long_bits arg2).2
    let g1 := { s.g with out_address_bus := a, out_data_bus := d, pull_be_low := true }
    let r1 := B.controlLoop s.env g1
    let g2 := { r1.2 with assert_address := true }
    let r2 := B.controlLoop r1.1 g2
    let g3 := { r2.2 with pull_rwbar_low := true }
    let r3 := B.controlLoop r2.1 g3
    let g4 := { r3.2 with assert_data := true }
    let r4 := B.controlLoop r3.1 g4
    let g5 := { r4.2 with pull_rwbar_low := false }
    let r5 := B.controlLoop r4.1 g5
    ∃ s', performWrite B s = some s' ∧
      s'.ctl_log = s.ctl_log ++ [g1, g2, g3, g4, g5] ∧
      s'.env = r5.1 ∧
      s'.g = { r5.2 with
        pull_be_low := s.g.pull_be_low, pull_rwbar_low := s.g.pull_rwbar_low,
        assert_address := s.g.assert_address, assert_data := s.g.assert_data,
        out_address_bus := s.g.out_address_bus % 2 ^ B.uint_bits,
        out_data_bus := s.g.out_data_bus % 2 ^ 8 } ∧
      s'.out = s.out := by
  intro a d g1 r1 g2 r2 g3 r3 g4 r4 g5 r5
  simp only [performWrite, h1, h2, hp1, hp2, tokenStr_g, Bool.not_true, Bool.false_eq_true,
    if_false, Option.some.injEq, exists_eq_left']
  refine ⟨?_, rfl, rfl, rfl⟩
  simp [restoreState, Sys.controlLoop, g1, g2, g3, g4, g5, r1, r2, r3, r4, a, d]

theorem performWrite_sequence_witness :
    ∃ s', performWrite scrambleBoard (sysWrite 0 busyGlobals) = some s' ∧
      s'.ctl_log.map (fun g => (g.out_address_bus, g.out_data_bus, g.pull_be_low,
          g.assert_address, g.pull_rwbar_low, g.assert_data)) =
        [(100, 255, true, true, false, false), (101, 0, false, true, true, true),
         (103, 2, true, false, true, false), (106, 5, false, true, false, true),
         (110, 9, true, false, false, false)] ∧
      s'.env = 5 := by
  obtain ⟨s', h, hlog, henv, -, -⟩ :=
    performWrite_sequence scrambleBoard (sysWrite 0 busyGlobals) (bytes "100") (bytes "255")
      (by decide) (by decide) (by decide) (by decide)
  refine ⟨s', h, ?_, ?_⟩
  · rw [hlog]; decide
  · rw [henv]; decide

/-- C4: a read whose address parses calls `controlLoop` exactly three times:
with byte-enable pulled low, then with the address asserted, then once more on
what the second call left. It prints `D: `, the uppercase hexadecimal digits of
the data bus value the third call left, and a line break. -/
theorem performRead_sequence (B : Board E) (s : Sys E) (arg1 : List Nat)
    (h1 : tokenStr s 1 = some arg1) (hp1 : (parseLong B.long_bits arg1).1 = true)
    (hbyte : ∀ e g, (B.controlLoop e g).2.data_bus < 2 ^ 8) :
    let a := toUnsigned B.uint_bits (parseLong B.long_bits arg1).2
    let g1 := { s.g with out_address_bus := a, pull_be_low := true }
    let r1 := B.controlLoop s.env g1
    let g2 := { r1.2 with assert_address := true }
    let r2 := B.controlLoop r1.1 g2
    let g3 := r2.2
    let r3 := B.controlLoop r2.1 g3
    ∃ s', performRead B s = some s' ∧ s'.ctl_log = s.ctl_log ++ [g1, g2, g3] ∧
      s'.out = s.out ++ bytes "D: " ++ hexUpper r3.2.data_bus ++ [13, 10] := by
  intro a g1 r1 g2 r2 g3 r3
  have hb : r3.2.data_bus < 256 := by simpa using hbyte r2.1 g3
  have hm : r3.2.data_bus % 2 ^ 8 = r3.2.data_bus := Nat.mod_eq_of_lt hb
  simp only [performRead, h1, hp1, Bool.not_true, Bool.false_eq_true, if_false,
    Option.some.injEq, exists_eq_left']
  refine ⟨?_, ?_⟩
  · simp [restoreState, Sys.print, Sys.println, Sys.controlLoop, g1, g2, g3, r1, r2, a]
  · show s.out ++ bytes "D: " ++ printNumber (r3.2.data_bus % 2 ^ 8) 16 ++ bytes "" ++ crlf = _
    rw [hm, printNumber_byte _ hb]
    simp [bytes, crlf]

theorem performRead_sequence_witness :
    ∃ s', performRead (stubBoard 0x42) (sysRead () Globals.zero) = some s' ∧
      s'.ctl_log.length = 3 ∧ s'.out = bytes "D: 42\r\n" := by
  obtain ⟨s', h, hlog, hout⟩ :=
    performRead_sequence (stubBoard 0x42) (sysRead () Globals.zero) (bytes "$10")
      (by decide) (by decide) (fun _ _ => (by decide : 0x42 < 2 ^ 8))
  refine ⟨s', h, ?_, ?_⟩
  · rw [hlog]; rfl
  · rw [hout]; decide

/-! ## Line editor -/

/-- C7: a rejected byte (backspace on an empty line, a control byte other than
backspace and the submit bytes, or a printable byte on a full line) changes
nothing but the transport, to which exactly the bell 0x07 is written; the next
state is the reading-command state. -/
theorem rejected_byte (B : Board E) (fuel : Nat) (s : Sys E) (ch : Nat)
    (h : ((ch = 8 ∨ ch = 127) ∧ s.cmd_len = 0) ∨
         (ch < 0x20 ∧ ch ≠ 8 ∧ ch ≠ 10 ∧ ch ≠ 13) ∨
         (0x20 ≤ ch ∧ ch ≠ 127 ∧ s.cmd_len = 31)) :
    readingCommandState B fuel s ch =
      some (SerialState.readingCommandState, { s with out := s.out ++ [7] }) := by
  rcases h with ⟨h8, h0⟩ | ⟨hlt, h8, h10, h13⟩ | ⟨hge, h127, hfull⟩
  · simp [readingCommandState, h8, h0, Sys.write]
  · have h127 : ch ≠ 127 := by omega
    simp [readingCommandState, h8, h10, h13, h127, hlt, Sys.write]
  · have h8 : ch ≠ 8 := by omega
    have h10 : ch ≠ 10 := by omega
    have h13 : ch ≠ 13 := by omega
    have hnlt : ¬ ch < 32 := by omega
    simp [readingCommandState, h8, h10, h13, h127, hnlt, hfull, MAX_CMD_LEN, Sys.write]

theorem rejected_byte_witness :
    readingCommandState (stubBoard 0) 0 (sysEditing () []) 127 =
        some (SerialState.readingCommandState,
          { sysEditing () [] with out := (sysEditing () []).out ++ [7] }) ∧
    readingCommandState (stubBoard 0) 0 (sysEditing () (bytes "ab")) 27 =
        some (SerialState.readingCommandState,
          { sysEditing () (bytes "ab") with out := (sysEditing () (bytes "ab")).out ++ [7] }) ∧
    readingCommandState (stubBoard 0) 0 (sysEditing () (List.replicate 31 97)) 98 =
        some (SerialState.readingCommandState,
          { sysEditing () (List.replicate 31 97) with
            out := (sysEditing () (List.replicate 31 97)).out ++ [7] }) :=
  ⟨rejected_byte _ _ _ _ (Or.inl ⟨Or.inr rfl, by decide⟩),
   rejected_byte _ _ _ _ (Or.inr (Or.inl (by decide))),
   rejected_byte _ _ _ _ (Or.inr (Or.inr (by decide)))⟩

/-- C8: a printable byte `b` other than 127 on a line of length `n < 31` is
stored at position `n` with a NUL behind it, the length becomes `n + 1`, the
bytes before position `n` stay, and `b` alone is echoed; a backspace byte after
that brings the length back to `n` with a NUL at position `n`, the first `n`
bytes as before, and writes 8, space, 8. -/
theorem accept_then_backspace (B : Board E) (fuel : Nat) (s : Sys E) (b n : Nat)
    (hb : 0x20 ≤ b) (hb' : b ≠ 127) (hn : s.cmd_len = n) (hlt : n < 31)
    (hlen : s.cmd_buf.length = 32) :
    ∃ s1, readingCommandState B fuel s b = some (SerialState.readingCommandState, s1) ∧
      s1.cmd_len = n + 1 ∧ s1.cmd_buf[n]? = some b ∧ s1.cmd_buf[n + 1]? = some 0 ∧
      (∀ i, i < n → s1.cmd_buf[i]? = s.cmd_buf[i]?) ∧ s1.out = s.out ++ [b] ∧
      ∀ bs, bs = 8 ∨ bs = 127 →
        ∃ s2, readingCommandState B fuel s1 bs = some (SerialState.readingCommandState, s2) ∧
          s2.cmd_len = n ∧ s2.cmd_buf[n]? = some 0 ∧
          (∀ i, i < n → s2.cmd_buf[i]? = s.cmd_buf[i]?) ∧ s2.out = s1.out ++ [8, 32, 8] := by
  have h8 : b ≠ 8 := by omega
  have h10 : b ≠ 10 := by omega
  have h13 : b ≠ 13 := by omega
  have hnlt : ¬ b < 32 := by omega
  have hlt' : (n : Int) < 31 := by exact_mod_cast hlt
  have e1 : setAtInt s.cmd_buf (n : Int) b = some (s.cmd_buf.set n b) := by
    simp [setAtInt, setAt, hlen]; omega
  have e2 : setAtInt (s.cmd_buf.set n b) ((n : Int) + 1) 0 =
      some ((s.cmd_buf.set n b).set (n + 1) 0) := by
    have : ((n : Int) + 1).toNat = n + 1 := by omega
    simp [setAtInt, setAt, hlen, this]; omega
  refine ⟨{ s with cmd_buf := (s.cmd_buf.set n b).set (n + 1) 0, cmd_len := (n : Int) + 1,
                   out := s.out ++ [b] }, ?_, rfl, ?_, ?_, ?_, rfl, ?_⟩
  · simp [readingCommandState, h8, h10, h13, hb', hnlt, hn, hlt', MAX_CMD_LEN, e1, e2, Sys.write]
  · simp [List.getElem?_set, hlen]; omega
  · simp [List.getElem?_set, hlen]; omega
  · intro i hi
    have h1 : n + 1 ≠ i := by omega
    have h2 : n ≠ i := by omega
    simp [List.getElem?_set, h1, h2]
  · intro bs hbs
    have e3 : setAtInt ((s.cmd_buf.set n b).set (n + 1) 0) (n : Int) 0 =
        some (((s.cmd_buf.set n b).set (n + 1) 0).set n 0) := by
      simp [setAtInt, setAt, hlen]; omega
    have hpos : (0 : Int) < (n : Int) + 1 := by omega
    refine ⟨{ s with cmd_buf := ((s.cmd_buf.set n b).set (n + 1) 0).set n 0,
                     cmd_len := (n : Int),
                     out := s.out ++ [b] ++ [8] ++ [32] ++ [8] }, ?_, rfl, ?_, ?_, ?_⟩
    · simp only [readingCommandState, if_pos hbs]
      simp [hpos, Sys.write, e3]
    · simp [List.getElem?_set, hlen]; omega
    · intro i hi
      have h1 : n + 1 ≠ i := by omega
      have h2 : n ≠ i := by omega
      simp [List.getElem?_set, h1, h2]
    · simp

theorem accept_then_backspace_witness :
    ∃ s1, readingCommandState (stubBoard 0) 0 (sysEditing () (bytes "re")) 97 =
        some (SerialState.readingCommandState, s1) ∧
      s1.cmd_len = 3 ∧ s1.cmd_buf[2]? = some 97 ∧ s1.cmd_buf[3]? = some 0 ∧
      s1.out = [97] ∧
      ∃ s2, readingCommandState (stubBoard 0) 0 s1 8 =
          some (SerialState.readingCommandState, s2) ∧
        s2.cmd_len = 2 ∧ s2.cmd_buf[2]? = some 0 ∧ s2.out = s1.out ++ [8, 32, 8] := by
  obtain ⟨s1, h1, hl, hb, hz, -, ho, hbk⟩ :=
    accept_then_backspace (stubBoard 0) 0 (sysEditing () (bytes "re")) 97 2
      (by decide) (by decide) (by decide) (by decide) (by decide)
  obtain ⟨s2, h2, hl2, hz2, -, ho2⟩ := hbk 8 (Or.inl rfl)
  exact ⟨s1, h1, hl, hb, hz, ho, s2, h2, hl2, hz2, ho2⟩

/-- Whatever `startSerialPrompt` returns has an empty command line. -/
theorem startSerialPrompt_cmd_len (s : Sys E) (r : SerialState × Sys E)
    (h : startSerialPrompt s = some r) : r.2.cmd_len = 0 := by
  unfold startSerialPrompt at h
  split at h
  · cases h
  · cases h; rfl

/-- Whatever `processCommand` returns has an empty command line. -/
theorem processCommand_cmd_len (B : Board E) (fuel : Nat) (s : Sys E)
    (r : SerialState × Sys E) (h : processCommand B fuel s = some r) : r.2.cmd_len = 0 := by
  unfold processCommand at h
  split at h
  · cases h
  · split at h
    · cases h
    · simp only at h
      split at h
      · cases h
      · exact startSerialPrompt_cmd_len _ _ h

/-- One input byte keeps the length of the command line between 0 and 31. -/
theorem readingCommandState_bounds (B : Board E) (fuel : Nat) (s : Sys E) (ch : Nat)
    (r : SerialState × Sys E) (h : readingCommandState B fuel s ch = some r)
    (hs : 0 ≤ s.cmd_len ∧ s.cmd_len ≤ 31) : 0 ≤ r.2.cmd_len ∧ r.2.cmd_len ≤ 31 := by
  unfold readingCommandState at h
  split at h
  · split at h
    · dsimp only at h
      split at h
      · cases h
      · cases h
        simp only [Sys.write] at *
        omega
    · cases h; exact hs
  · split at h
    · rw [processCommand_cmd_len B fuel _ r h]; omega
    · split at h
      · cases h; exact hs
      · split at h
        · rename_i hlt
          split at h
          · cases h
          · split at h
            · cases h
            · cases h
              simp only [Sys.write, MAX_CMD_LEN] at *
              omega
        · cases h; exact hs

/-- A byte that is not a submit byte is always worked off, and the buffer keeps
its 32 bytes: the line editor stays inside `cmd_buf`. -/
theorem readingCommandState_edit_total (B : Board E) (fuel : Nat) (s : Sys E) (ch : Nat)
    (hch : ch ≠ 10 ∧ ch ≠ 13) (hlen : s.cmd_buf.length = 32)
    (hs : 0 ≤ s.cmd_len ∧ s.cmd_len ≤ 31) :
    ∃ r, readingCommandState B fuel s ch = some r ∧ r.2.cmd_buf.length = 32 := by
  obtain ⟨n, hn⟩ : ∃ n : Nat, s.cmd_len = n := ⟨s.cmd_len.toNat, by omega⟩
  have hn31 : n ≤ 31 := by omega
  have hsub : ¬ (ch = 10 ∨ ch = 13) := by omega
  unfold readingCommandState
  by_cases hbs : ch = 8 ∨ ch = 127
  · rw [if_pos hbs]
    by_cases hpos : s.cmd_len > 0
    · have e : setAtInt s.cmd_buf (s.cmd_len - 1) 0 = some (s.cmd_buf.set (n - 1) 0) := by
        have h1 : (s.cmd_len - 1).toNat = n - 1 := by omega
        have h2 : (0 : Int) ≤ s.cmd_len - 1 := by omega
        simp only [setAtInt, if_pos h2, setAt, h1, hlen]
        rw [if_pos (by omega)]
      rw [if_pos hpos]
      simp only [Sys.write, e]
      exact ⟨_, rfl, by simp [hlen]⟩
    · rw [if_neg hpos]
      exact ⟨_, rfl, by simp [Sys.write, hlen]⟩
  · rw [if_neg hbs, if_neg hsub]
    by_cases hctl : ch < 0x20
    · rw [if_pos hctl]
      exact ⟨_, rfl, by simp [Sys.write, hlen]⟩
    · rw [if_neg hctl]
      by_cases hroom : s.cmd_len < MAX_CMD_LEN
      · have hn30 : n < 31 := by
          simp only [MAX_CMD_LEN, hn] at hroom
          omega
        have e1 : setAtInt s.cmd_buf s.cmd_len ch = some (s.cmd_buf.set n ch) := by
          have h1 : s.cmd_len.toNat = n := by omega
          simp only [setAtInt, if_pos hs.1, setAt, h1, hlen]
          rw [if_pos (by omega)]
        have e2 : setAtInt (s.cmd_buf.set n ch) (s.cmd_len + 1) 0 =
            some ((s.cmd_buf.set n ch).set (n + 1) 0) := by
          have h1 : (s.cmd_len + 1).toNat = n + 1 := by omega
          have h2 : (0 : Int) ≤ s.cmd_len + 1 := by omega
          simp only [setAtInt, if_pos h2, setAt, h1, List.length_set, hlen]
          rw [if_pos (by omega)]
        rw [if_pos hroom]
        simp only [e1, e2]
        exact ⟨_, rfl, by simp [Sys.write, hlen]⟩
      · rw [if_neg hroom]
        exact ⟨_, rfl, by simp [Sys.write, hlen]⟩

/-- C6: from the state `startSerialPrompt` establishes, after any sequence of
input bytes (submit bytes included) that the interpreter has worked off, the
length of the command line is between 0 and 31. -/
theorem cmd_len_bounds (B : Board E) (fuel : Nat) (s0 s1 s : Sys E) (st : SerialState)
    (input : List Nat) (h0 : startSerialPrompt s0 = some (st, s1))
    (hrun : feed B fuel s1 input = some s) : 0 ≤ s.cmd_len ∧ s.cmd_len ≤ 31 := by
  have h1 : 0 ≤ s1.cmd_len ∧ s1.cmd_len ≤ 31 := by
    have := startSerialPrompt_cmd_len s0 _ h0
    simp only at this
    omega
  clear h0
  induction input generalizing s1 with
  | nil =>
    simp only [feed, Option.some.injEq] at hrun
    subst hrun; exact h1
  | cons ch rest ih =>
    simp only [feed] at hrun
    split at hrun
    · cases hrun
    · rename_i st' s2 hstep
      exact ih s2 hrun (readingCommandState_bounds B fuel s1 ch _ hstep h1)

theorem cmd_len_bounds_witness :
    ∃ s1 s, startSerialPrompt (sysEditing () (bytes "junk")) =
        some (SerialState.readingCommandState, s1) ∧
      feed (stubBoard 0x42) 4 s1 (bytes "read $10\rcycle 2\rwri") = some s ∧
      0 ≤ s.cmd_len ∧ s.cmd_len ≤ 31 := by
  obtain ⟨⟨st, s1⟩, h1⟩ := Option.isSome_iff_exists.1
    (by decide : (startSerialPrompt (sysEditing () (bytes "junk"))).isSome = true)
  cases st
  have hsome : (feed (stubBoard 0x42) 4 s1 (bytes "read $10\rcycle 2\rwri")).isSome = true := by
    have e : s1 = ((startSerialPrompt (sysEditing () (bytes "junk"))).get (by decide)).2 := by
      simp [h1]
    rw [e]; decide
  obtain ⟨s, h2⟩ := Option.isSome_iff_exists.1 hsome
  exact ⟨s1, s, h1, h2, cmd_len_bounds (stubBoard 0x42) 4 _ s1 s _ _ h1 h2⟩

/-! ## Numeric arguments -/

theorem digitOf_dec (c : Nat) (h : isDecDigit c = true) : digitOf 10 c = some (digitValue c) := by
  simp only [isDecDigit, Bool.and_eq_true, decide_eq_true_eq] at h
  have h1 : c ≤ 57 := h.2
  have h2 : c - 48 < 10 := by omega
  simp [digitOf, digitVal, digitValue, h.1, h1, h2]

theorem digitOf_hex (c : Nat) (h : isHexDigit c = true) : digitOf 16 c = some (digitValue c) := by
  simp only [isHexDigit, Bool.or_eq_true, Bool.and_eq_true, decide_eq_true_eq] at h
  rcases h with (⟨h1, h2⟩ | ⟨h1, h2⟩) | ⟨h1, h2⟩
  · have h3 : c - 48 < 16 := by omega
    simp [digitOf, digitVal, digitValue, h1, h2, h3]
  · have h3 : ¬ c ≤ 57 := by omega
    have h4 : c ≤ 122 := by omega
    have h5 : c - 97 + 10 < 16 := by omega
    have h6 : ¬ c ≤ 70 := by omega
    have h7 : c - 97 + 10 = c - 87 := by omega
    simp [digitOf, digitVal, digitValue, h1, h3, h4, h5, h6, h7]
    omega
  · have h3 : ¬ c ≤ 57 := by omega
    have h4 : ¬ 97 ≤ c := by omega
    have h5 : c ≤ 90 := by omega
    have h6 : c - 65 + 10 < 16 := by omega
    have h7 : c - 65 + 10 = c - 55 := by omega
    simp [digitOf, digitVal, digitValue, h1, h2, h3, h4, h5, h6, h7]
    omega

theorem digitOf_isSome (base c : Nat) (hb : base = 10 ∨ base = 16) :
    (digitOf base c).isSome = isBaseDigit base c := by
  by_cases h : isBaseDigit base c = true
  · rw [h]
    rcases hb with rfl | rfl
    · simp [digitOf_dec c (by simpa [isBaseDigit] using h)]
    · simp [digitOf_hex c (by simpa [isBaseDigit] using h)]
  · rw [Bool.not_eq_true] at h
    rw [h]
    rcases hb with rfl | rfl
    · simp only [isBaseDigit, isDecDigit] at h
      simp only [digitOf, digitVal]
      split_ifs at h ⊢ <;> simp_all
    · simp only [isBaseDigit, isHexDigit] at h
      simp only [digitOf, digitVal]
      split_ifs at h ⊢ <;> simp_all <;> omega

/-- The digit loop on a string of digits: the value accumulates, nothing is left. -/
theorem strtolDigits_all (base : Nat) (l : List Nat)
    (h : ∀ c ∈ l, digitOf base c = some (digitValue c)) (acc : Nat) :
    strtolDigits base l acc = (acc * base ^ l.length + numeral base l, []) := by
  induction l generalizing acc with
  | nil => simp [strtolDigits, numeral]
  | cons c cs ih =>
    have hc := h c (List.mem_cons_self _ _)
    have hcs : ∀ x ∈ cs, digitOf base x = some (digitValue x) :=
      fun x hx => h x (List.mem_cons_of_mem _ hx)
    simp only [strtolDigits, hc, ih hcs]
    simp only [numeral, List.map_cons, List.reverse_cons, Nat.ofDigits_append,
      Nat.ofDigits_singleton, List.length_reverse, List.length_map, List.length_cons,
      Prod.mk.injEq, and_true]
    ring

/-- The digit loop leaves nothing exactly when every character is a digit. -/
theorem strtolDigits_rest (base : Nat) (hb : base = 10 ∨ base = 16) (l : List Nat) (acc : Nat) :
    decide ((strtolDigits base l acc).2 = []) = l.all (isBaseDigit base) := by
  induction l generalizing acc with
  | nil => simp [strtolDigits]
  | cons c cs ih =>
    have hd := digitOf_isSome base c hb
    cases hdo : digitOf base c with
    | none =>
      rw [hdo] at hd
      simp [strtolDigits, hdo, ← hd]
    | some d =>
      rw [hdo] at hd
      simp only [strtolDigits, hdo, ih, List.all_cons, ← hd]
      simp

/-- A value between 0 and `LONG_MAX` is not clamped. -/
theorem clampLong_nat (long_bits n : Nat) (h : (n : Int) ≤ LONG_MAX long_bits) :
    clampLong long_bits (n : Int) = n := by
  have h0 : LONG_MIN long_bits ≤ 0 := by
    unfold LONG_MIN
    have : (0 : Int) ≤ 2 ^ (long_bits - 1) := by positivity
    omega
  unfold clampLong
  rw [if_neg (by omega), if_neg (by omega)]

/-- `strtol` on a string of digits of the base, the first of which is neither
`0` followed by `x` nor anything but a digit. -/
theorem strtol_digits (long_bits base : Nat) (hb : base = 10 ∨ base = 16) (ds : List Nat)
    (hne : ds ≠ []) (hall : ∀ c ∈ ds, isBaseDigit base c = true)
    (hfit : (numeral base ds : Int) ≤ LONG_MAX long_bits) :
    strtol long_bits ds base = ((numeral base ds : Int), []) := by
  have hdig : ∀ c ∈ ds, digitOf base c = some (digitValue c) := by
    intro c hc
    have := hall c hc
    rcases hb with rfl | rfl
    · exact digitOf_dec c (by simpa [isBaseDigit] using this)
    · exact digitOf_hex c (by simpa [isBaseDigit] using this)
  have hrange : ∀ c ∈ ds, 48 ≤ c ∧ c ≠ 120 ∧ c ≠ 88 := by
    intro c hc
    have := hall c hc
    simp only [isBaseDigit, isHexDigit, isDecDigit] at this
    split_ifs at this <;> simp at this <;> omega
  obtain ⟨c, cs, rfl⟩ := List.exists_cons_of_ne_nil hne
  have hc := hrange c (List.mem_cons_self _ _)
  have hsp : isspace c = false := by
    simp [isspace]; omega
  have h1 : List.dropWhile isspace (c :: cs) = c :: cs := by
    simp [List.dropWhile, hsp]
  have h2 : strtolSign (c :: cs) = (false, c :: cs) := by
    have h45 : c ≠ 45 := by omega
    have h43 : c ≠ 43 := by omega
    simp [strtolSign, h45, h43]
  have h3 : strtolHexMark base (c :: cs) = c :: cs := by
    rcases cs with _ | ⟨x, _ | ⟨d, r⟩⟩
    · rfl
    · rfl
    · have hx := hrange x (by simp)
      simp [strtolHexMark, hx.2.1, hx.2.2]
  have h4 : (digitOf base c).isSome = true := by
    rw [hdig c (List.mem_cons_self _ _)]; rfl
  simp only [strtol, h1, h2, h3, h4, if_true, strtolDigits_all base _ hdig]
  simp [clampLong_nat _ _ hfit]

/-- C9: a non-empty string of decimal digits whose value fits a `long` parses
to that value in base 10, and `$` followed by a non-empty string of hexadecimal
digits (either case) whose value fits a `long` parses to that value in base 16. -/
theorem parseLong_digits (long_bits : Nat) (ds : List Nat) (hne : ds ≠ []) :
    ((∀ c ∈ ds, isDecDigit c = true) → (numeral 10 ds : Int) ≤ LONG_MAX long_bits →
      parseLong long_bits ds = (true, (numeral 10 ds : Int))) ∧
    ((∀ c ∈ ds, isHexDigit c = true) → (numeral 16 ds : Int) ≤ LONG_MAX long_bits →
      parseLong long_bits (36 :: ds) = (true, (numeral 16 ds : Int))) := by
  constructor
  · intro hall hfit
    have hs := strtol_digits long_bits 10 (Or.inl rfl) ds hne
      (fun c hc => by simpa [isBaseDigit] using hall c hc) hfit
    obtain ⟨c, cs, rfl⟩ := List.exists_cons_of_ne_nil hne
    have hc : c ≠ 36 := by
      have := hall c (List.mem_cons_self _ _)
      simp [isDecDigit] at this; omega
    simp [parseLong, hc, hs]
  · intro hall hfit
    have hs := strtol_digits long_bits 16 (Or.inr rfl) ds hne
      (fun c hc => by simpa [isBaseDigit] using hall c hc) hfit
    simp [parseLong, hs, hne]

theorem parseLong_digits_witness :
    parseLong 32 (bytes "2024") = (true, (numeral 10 (bytes "2024") : Int)) ∧
    parseLong 32 (bytes "$1A") = (true, (numeral 16 (bytes "1A") : Int)) ∧
    numeral 16 (bytes "1A") = 26 :=
  ⟨(parseLong_digits 32 (bytes "2024") (by decide)).1 (by decide) (by decide),
   (parseLong_digits 32 (bytes "1A") (by decide)).2 (by decide) (by decide),
   by decide⟩

/-- The sign step of `strtol` leaves the string without its sign character. -/
theorem strtolSign_snd (t : List Nat) : (strtolSign t).2 = dropSign t := by
  rcases t with _ | ⟨c, r⟩
  · rfl
  · by_cases h45 : c = 45
    · simp [strtolSign, dropSign, h45]
    · by_cases h43 : c = 43
      · simp [strtolSign, dropSign, h43]
      · simp [strtolSign, dropSign, h45, h43]

/-- Whether `strtol` consumes a whole non-empty string, in terms of the string
behind white space and sign. -/
theorem strtol_consumes (long_bits base : Nat) (hb : base = 10 ∨ base = 16) (s : List Nat) :
    (decide (s ≠ []) && decide ((strtol long_bits s base).2 = [])) = isNumeral base s := by
  have hs : s = [] → dropSign (List.dropWhile isspace s) = [] := by
    rintro rfl; rfl
  simp only [strtol, isNumeral, strtolSign_snd]
  generalize dropSign (List.dropWhile isspace s) = t at hs
  have hx120 : digitOf 16 120 = none := by decide
  have hx88 : digitOf 16 88 = none := by decide
  have h48 : digitOf 16 48 = some 0 := by decide
  by_cases hmark : base = 16 ∧ ∃ x r, t = 48 :: x :: r ∧ (x = 120 ∨ x = 88)
  · obtain ⟨rfl, x, r, rfl, hx⟩ := hmark
    have hsne : s ≠ [] := fun h => by simpa using hs h
    have hxd : digitOf 16 x = none := by rcases hx with rfl | rfl <;> assumption
    rcases r with _ | ⟨d, r⟩
    · simp [strtolHexMark, dropHexMark, hx, h48, strtolDigits, hxd]
    · by_cases hd : (digitOf 16 d).isSome = true
      · have := strtolDigits_rest 16 (Or.inr rfl) (d :: r) 0
        simp only [strtolHexMark, dropHexMark, hx, hd, true_and, and_self, if_true, this]
        simp [hsne, ← digitOf_isSome 16 d (Or.inr rfl), hd]
      · have hd' : isBaseDigit 16 d = false := by
          rw [← digitOf_isSome 16 d (Or.inr rfl)]; simpa using hd
        simp [strtolHexMark, dropHexMark, hx, hd, h48, strtolDigits, hxd, hd']
  · have e1 : strtolHexMark base t = t := by
      rcases t with _ | ⟨c, _ | ⟨x, _ | ⟨d, r⟩⟩⟩
      · rfl
      · rfl
      · rfl
      · simp only [strtolHexMark]
        rw [if_neg]
        rintro ⟨h16, hc, hx, -⟩
        exact hmark ⟨h16, x, d :: r, by rw [hc], hx⟩
    have e2 : (if base = 16 then dropHexMark t else t) = t := by
      split_ifs with h16
      · rcases t with _ | ⟨c, _ | ⟨x, r⟩⟩
        · rfl
        · rfl
        · simp only [dropHexMark]
          rw [if_neg]
          rintro ⟨hc, hx⟩
          exact hmark ⟨h16, x, r, by rw [hc], hx⟩
      · rfl
    rw [e1, e2]
    rcases t with _ | ⟨c, r⟩
    · simp
    · have hsne : s ≠ [] := fun h => by simpa using hs h
      by_cases hc : (digitOf base c).isSome = true
      · have := strtolDigits_rest base hb (c :: r) 0
        simp only [hc, if_true, this]
        simp [hsne]
      · have hc' : isBaseDigit base c = false := by
          rw [← digitOf_isSome base c hb]; simpa using hc
        simp [hc, hsne, hc']

/-- C10 as amended: `parseLong` returns true exactly for the tokens of the form
`[$]` white space, optional sign, optional `0x` (after `$`), digits of the base
(at least one). -/
theorem parseLong_accepted (long_bits : Nat) (s : List Nat) :
    (parseLong long_bits s).1 = accepted s := by
  rcases s with _ | ⟨c, r⟩
  · rfl
  · by_cases hc : c = 36
    · simp only [parseLong, accepted, hc, if_true]
      exact strtol_consumes long_bits 16 (Or.inr rfl) r
    · simp only [parseLong, accepted, hc, if_false]
      exact strtol_consumes long_bits 10 (Or.inl rfl) (c :: r)

/-- C10 as stated fails: tokens that begin with a sign, with white space, or
(after `$`) with `0x` are accepted although they contain a character that is
not a digit of the base. -/
theorem parseLong_sign_accepted :
    parseLong 32 (bytes "-5") = (true, -5) ∧ parseLong 32 (bytes "+5") = (true, 5) ∧
    parseLong 32 (bytes "$-1A") = (true, -26) ∧ parseLong 32 (bytes "$0x1A") = (true, 26) ∧
    parseLong 32 (bytes "\t5") = (true, 5) := by
  decide

/-! ## Tokenizer -/

/-- The byte at the end of a prefix of the buffer. -/
theorem getElem?_after (pre : List Nat) (c : Nat) (tl : List Nat) :
    (pre ++ c :: tl)[pre.length]? = some c := by
  induction pre with
  | nil => simp
  | cons a pre ih => simpa using ih

/-- First inner loop on a stretch `mid` of non-NUL bytes that ends at `cmd_len`:
it stops behind the leading spaces of `mid`. -/
theorem skipSpaces_spec (mid : List Nat) : ∀ (pre tl : List Nat) (n : Int) (fuel : Nat),
    n = (pre.length : Int) + mid.length → mid.length < fuel → (∀ c ∈ mid, c ≠ 0) →
    skipSpaces (pre ++ mid ++ tl) n fuel pre.length =
      some (pre.length + (mid.takeWhile (fun c => c == 32)).length) := by
  induction mid with
  | nil =>
    intro pre tl n fuel hn hf _
    obtain ⟨f, rfl⟩ : ∃ f, fuel = f + 1 := ⟨fuel - 1, by omega⟩
    simp [skipSpaces, hn]
  | cons c m ih =>
    intro pre tl n fuel hn hf hnz
    obtain ⟨f, rfl⟩ : ∃ f, fuel = f + 1 := ⟨fuel - 1, by omega⟩
    have hc0 : c ≠ 0 := hnz c (List.mem_cons_self _ _)
    have hlt : (pre.length : Int) < n := by simp [hn]
    have hget : (pre ++ c :: m ++ tl)[pre.length]? = some c := by
      rw [List.append_assoc]; exact getElem?_after pre c _
    simp only [skipSpaces, hlt, if_true, hget]
    by_cases h32 : c = 32
    · have e : pre ++ c :: m ++ tl = (pre ++ [c]) ++ m ++ tl := by simp
      have := ih (pre ++ [c]) tl n f (by simp [hn]; omega) (by simp at hf; omega)
        (fun x hx => hnz x (List.mem_cons_of_mem _ hx))
      simp only [List.length_append, List.length_singleton] at this
      rw [if_pos ⟨hc0, h32⟩, e, this]
      simp [h32]; omega
    · rw [if_neg (fun h => h32 h.2)]
      simp [List.takeWhile_cons, h32]

/-- Second inner loop on a stretch `mid` of non-NUL bytes that ends at `cmd_len`:
it stops behind the leading non-space bytes of `mid`. -/
theorem scanToken_spec (mid : List Nat) : ∀ (pre tl : List Nat) (n : Int) (fuel : Nat),
    n = (pre.length : Int) + mid.length → mid.length < fuel → (∀ c ∈ mid, c ≠ 0) →
    scanToken (pre ++ mid ++ tl) n fuel pre.length =
      some (pre.length + (mid.takeWhile (fun c => c != 32)).length) := by
  induction mid with
  | nil =>
    intro pre tl n fuel hn hf _
    obtain ⟨f, rfl⟩ : ∃ f, fuel = f + 1 := ⟨fuel - 1, by omega⟩
    simp [scanToken, hn]
  | cons c m ih =>
    intro pre tl n fuel hn hf hnz
    obtain ⟨f, rfl⟩ : ∃ f, fuel = f + 1 := ⟨fuel - 1, by omega⟩
    have hc0 : c ≠ 0 := hnz c (List.mem_cons_self _ _)
    have hlt : (pre.length : Int) < n := by simp [hn]
    have hget : (pre ++ c :: m ++ tl)[pre.length]? = some c := by
      rw [List.append_assoc]; exact getElem?_after pre c _
    simp only [scanToken, hlt, if_true, hget]
    by_cases h32 : c = 32
    · rw [if_neg (fun h => h.2 h32)]
      simp [List.takeWhile_cons, h32]
    · have e : pre ++ c :: m ++ tl = (pre ++ [c]) ++ m ++ tl := by simp
      have := ih (pre ++ [c]) tl n f (by simp [hn]; omega) (by simp at hf; omega)
        (fun x hx => hnz x (List.mem_cons_of_mem _ hx))
      simp only [List.length_append, List.length_singleton] at this
      rw [if_pos ⟨hc0, h32⟩, e, this]
      simp [List.takeWhile_cons, h32]; omega

/-- The C string in front of a NUL. -/
theorem cstrOf_append (w tl : List Nat) (hw : ∀ c ∈ w, c ≠ 0) :
    cstrOf (w ++ 0 :: tl) = some w := by
  induction w with
  | nil => simp [cstrOf]
  | cons c w ih =>
    have hc : c ≠ 0 := hw c (List.mem_cons_self _ _)
    simp [cstrOf, hc, ih (fun x hx => hw x (List.mem_cons_of_mem _ hx))]

/-- The C string at the end of a prefix of the buffer. -/
theorem cstr_append (pre w tl : List Nat) (hw : ∀ c ∈ w, c ≠ 0) :
    cstr (pre ++ w ++ 0 :: tl) pre.length = some w := by
  unfold cstr
  rw [List.append_assoc, List.drop_left]
  exact cstrOf_append w tl hw

/-- With enough fuel `runsFuel` does not depend on the fuel. -/
theorem runsFuel_stable : ∀ (f g : Nat) (l : List Nat), l.length ≤ f → l.length ≤ g →
    runsFuel f l = runsFuel g l := by
  intro f
  induction f with
  | zero =>
    intro g l hf _
    have : l = [] := List.length_eq_zero.1 (by omega)
    subst this
    cases g <;> simp [runsFuel]
  | succ f ih =>
    intro g l hf hg
    cases g with
    | zero =>
      have : l = [] := List.length_eq_zero.1 (by omega)
      subst this
      simp [runsFuel]
    | succ g =>
      simp only [runsFuel]
      cases hd : l.dropWhile (fun c => c == 32) with
      | nil => rfl
      | cons c cs =>
        have h1 : (c :: cs).length ≤ l.length := by
          rw [← hd]; exact (List.dropWhile_sublist _).length_le
        have h2 : ((c :: cs).dropWhile (fun c => c != 32)).length ≤ cs.length := by
          have hc : (c == 32) = false := by
            have := List.head?_dropWhile_not (fun c => c == 32) l
            rw [hd] at this
            simpa using this
          have hc' : (c != 32) = true := by simp [bne, hc]
          rw [List.dropWhile_cons, if_pos hc']
          exact (List.dropWhile_sublist _).length_le
        simp only [List.length_cons] at h1
        simp only
        rw [ih g _ (by omega) (by omega)]

/-- Unfolding of `runs`: skip the spaces, take the run, go on behind it. -/
theorem runs_eq (l : List Nat) :
    runs l = match l.dropWhile (fun c => c == 32) with
      | [] => []
      | c :: cs => (c :: cs).takeWhile (fun c => c != 32) ::
          runs ((c :: cs).dropWhile (fun c => c != 32)) := by
  unfold runs
  rw [runsFuel_stable l.length (l.length + 1) l (le_refl _) (by omega)]
  simp only [runsFuel]
  cases hd : l.dropWhile (fun c => c == 32) with
  | nil => rfl
  | cons c cs =>
    simp only
    congr 1
    apply runsFuel_stable _ _ _ _ (le_refl _)
    have h1 : (c :: cs).length ≤ l.length := by
      rw [← hd]; exact (List.dropWhile_sublist _).length_le
    have h2 : ((c :: cs).dropWhile (fun c => c != 32)).length ≤ (c :: cs).length :=
      (List.dropWhile_sublist _).length_le
    omega

/-- Storing behind a prefix of the buffer. -/
theorem setAt_after (pre : List Nat) (c v : Nat) (tl : List Nat) :
    setAt (pre ++ c :: tl) pre.length v = some (pre ++ v :: tl) := by
  have h : (pre ++ c :: tl).set pre.length v = pre ++ v :: tl := by
    induction pre with
    | nil => rfl
    | cons a pre ih => simp [List.set, ih]
  simp [setAt, h]

/-- Head of what is left behind the leading spaces. -/
theorem dropWhile_space_head (l : List Nat) (c : Nat) (cs : List Nat)
    (h : l.dropWhile (fun c => c == 32) = c :: cs) : c ≠ 32 := by
  have := List.head?_dropWhile_not (fun c => c == 32) l
  rw [h] at this
  simpa using this

/-- Head of what is left behind a run of non-space bytes. -/
theorem dropWhile_nonspace_head (l : List Nat) (c : Nat) (cs : List Nat)
    (h : l.dropWhile (fun c => c != 32) = c :: cs) : c = 32 := by
  have := List.head?_dropWhile_not (fun c => c != 32) l
  rw [h] at this
  simpa using this

/-- A line that starts with a space has the runs of the rest. -/
theorem runs_space (l : List Nat) : runs (32 :: l) = runs l := by
  rw [runs_eq (32 :: l), runs_eq l]
  simp [List.dropWhile_cons]

theorem runs_nil : runs [] = [] := rfl

/-- The `while` loop of `tokenizeCmdBuf`, entered at the start of a stretch
`mid` of non-NUL bytes that ends at `cmd_len`, with a NUL behind it and `k`
tokens recorded: it records the first `5 - k` runs of `mid` from entry `k` on,
each pointer inside the stretch and at a C string equal to its run whose NUL is
at `cmd_len` at the latest, writes NULL behind the last one, and changes the
buffer only inside the stretch. -/
theorem tokenizeLoop_inv : ∀ (fuel k : Nat) (pre mid post : List Nat)
    (tv : List (Option Nat)) (n : Int),
    n = (pre.length : Int) + mid.length → (∀ c ∈ mid, c ≠ 0) → tv.length = 6 → k ≤ 5 →
    5 - k < fuel → tv[k]? = some none →
    ∃ mid' tv', tokenizeLoop n fuel k pre.length (pre ++ mid ++ 0 :: post) tv =
        some (pre ++ mid' ++ 0 :: post, tv') ∧
      mid'.length = mid.length ∧ tv'.length = 6 ∧ (∀ j, j < k → tv'[j]? = tv[j]?) ∧
      (∀ j w, ((runs mid).take (5 - k))[j]? = some w →
        ∃ p, tv'[k + j]? = some (some p) ∧ cstr (pre ++ mid' ++ 0 :: post) p = some w ∧
          pre.length ≤ p ∧ p < pre.length + mid.length ∧
          p + w.length ≤ pre.length + mid.length) ∧
      tv'[k + ((runs mid).take (5 - k)).length]? = some none := by
  intro fuel
  induction fuel with
  | zero => intro k pre mid post tv n _ _ _ _ hf; omega
  | succ f ih =>
    intro k pre mid post tv n hn hnz htv hk hf hnone
    by_cases hcond : k < 5 ∧ mid ≠ []
    swap
    · -- the loop is not entered
      have hc : ¬ (k < MAX_TOKENS ∧ (pre.length : Int) < n) := by
        rintro ⟨h1, h2⟩
        apply hcond
        refine ⟨h1, ?_⟩
        rintro rfl
        simp [hn] at h2
      have hr : (runs mid).take (5 - k) = [] := by
        by_cases h5 : k < 5
        · have : mid = [] := by
            by_contra h; exact hcond ⟨h5, h⟩
          subst this; simp [runs_nil]
        · have : 5 - k = 0 := by omega
          simp [this]
      refine ⟨mid, tv, ?_, rfl, htv, fun _ _ => rfl, ?_, ?_⟩
      · simp only [tokenizeLoop, if_neg hc]
      · intro j w hj; simp [hr] at hj
      · simpa [hr] using hnone
    · obtain ⟨hk5, hmid⟩ := hcond
      have hc : k < MAX_TOKENS ∧ (pre.length : Int) < n := by
        refine ⟨hk5, ?_⟩
        have : 0 < mid.length := List.length_pos.2 hmid
        omega
      have hsplit := List.takeWhile_append_dropWhile (fun c => c == 32) mid
      have hskip := skipSpaces_spec mid pre (0 :: post) n
        ((pre ++ mid ++ 0 :: post).length + 1) hn (by simp; omega) hnz
      have htv1 : setAt tv k (some (pre.length + (mid.takeWhile (fun c => c == 32)).length)) =
          some (tv.set k (some (pre.length + (mid.takeWhile (fun c => c == 32)).length))) := by
        simp [setAt, htv]; omega
      simp only [tokenizeLoop, if_pos hc, hskip]
      generalize hsp : mid.takeWhile (fun c => c == 32) = sp at hsplit htv1 ⊢
      cases hm1 : mid.dropWhile (fun c => c == 32) with
      | nil =>
        -- only spaces are left
        rw [hm1, List.append_nil] at hsplit
        have hr : runs mid = [] := by rw [runs_eq, hm1]
        have hend : atLineEnd (pre ++ mid ++ 0 :: post) n (pre.length + sp.length) = some true := by
          simp [atLineEnd, hn, ← hsplit]
        refine ⟨mid, tv, ?_, rfl, htv, fun _ _ => rfl, ?_, ?_⟩
        · simp only [hend]
        · intro j w hj; simp [hr] at hj
        · simpa [hr] using hnone
      | cons c m1 =>
        rw [hm1] at hsplit
        have hc32 : c ≠ 32 := dropWhile_space_head mid c m1 hm1
        have hc0 : c ≠ 0 := hnz c (by rw [← hsplit]; simp)
        have hnz1 : ∀ x ∈ c :: m1, x ≠ 0 := fun x hx =>
          hnz x (by rw [← hsplit]; exact List.mem_append_right _ hx)
        have hbuf1 : pre ++ mid ++ 0 :: post = (pre ++ sp) ++ (c :: m1) ++ 0 :: post := by
          rw [← hsplit]; simp
        have hn1 : n = ((pre ++ sp).length : Int) + (c :: m1).length := by
          rw [hn, ← hsplit]; simp; omega
        have hend : atLineEnd (pre ++ mid ++ 0 :: post) n (pre.length + sp.length) =
            some false := by
          have hne : ¬ ((pre.length + sp.length : Nat) : Int) = n := by
            rw [hn, ← hsplit]; simp; omega
          have hget : (pre ++ mid ++ 0 :: post)[pre.length + sp.length]? = some c := by
            have := getElem?_after (pre ++ sp) c (m1 ++ 0 :: post)
            rw [hbuf1]
            simpa using this
          unfold atLineEnd
          rw [if_neg hne, hget]
          simp [hc0]
        have htv2 : setAt (tv.set k (some (pre.length + sp.length))) (k + 1) none =
            some ((tv.set k (some (pre.length + sp.length))).set (k + 1) none) := by
          simp [setAt, htv]; omega
        have hscan : scanToken (pre ++ mid ++ 0 :: post) n
            ((pre ++ mid ++ 0 :: post).length + 1) (pre.length + sp.length) =
            some (pre.length + sp.length +
              ((c :: m1).takeWhile (fun c => c != 32)).length) := by
          have := scanToken_spec (c :: m1) (pre ++ sp) (0 :: post) n
            ((pre ++ mid ++ 0 :: post).length + 1) hn1 (by rw [← hsplit]; simp; omega) hnz1
          rw [← hbuf1] at this
          simpa only [List.length_append] using this
        simp only [hend, htv1, htv2, hscan]
        have hsplit2 := List.takeWhile_append_dropWhile (fun c => c != 32) (c :: m1)
        generalize hw : (c :: m1).takeWhile (fun c => c != 32) = w at hsplit2 ⊢
        have hwnz : ∀ x ∈ w, x ≠ 0 := fun x hx =>
          hnz1 x (by rw [← hsplit2]; exact List.mem_append_left _ hx)
        set tv2 := (tv.set k (some (pre.length + sp.length))).set (k + 1) none with htv2def
        have htv2len : tv2.length = 6 := by simp [htv2def, htv]
        have htv2k : tv2[k]? = some (some (pre.length + sp.length)) := by
          simp [htv2def, List.getElem?_set, htv]; omega
        have htv2k1 : tv2[k + 1]? = some none := by
          simp [htv2def, List.getElem?_set, htv]; omega
        have htv2lt : ∀ j, j < k → tv2[j]? = tv[j]? := by
          intro j hj
          have h1 : k + 1 ≠ j := by omega
          have h2 : k ≠ j := by omega
          simp [htv2def, List.getElem?_set, h1, h2]
        have h5k : 5 - k = (5 - (k + 1)) + 1 := by omega
        cases hm2 : (c :: m1).dropWhile (fun c => c != 32) with
        | nil =>
          -- the token ends the line
          rw [hm2, List.append_nil] at hsplit2
          have hr : runs mid = [w] := by
            rw [runs_eq, hm1]; simp only [hw, hm2, runs_nil]
          have hi2 : ¬ ((pre.length + sp.length + w.length : Nat) : Int) < n := by
            rw [hn1, ← hsplit2]; simp
          obtain ⟨f', rfl⟩ : ∃ f', f = f' + 1 := ⟨f - 1, by omega⟩
          have hc2 : ¬ (k + 1 < MAX_TOKENS ∧
              ((pre.length + sp.length + w.length + 1 : Nat) : Int) < n) := by
            rintro ⟨-, h⟩
            apply hi2
            push_cast at h ⊢
            omega
          refine ⟨mid, tv2, ?_, rfl, htv2len, htv2lt, ?_, ?_⟩
          · simp only [if_neg hi2, tokenizeLoop, if_neg hc2]
          · intro j w' hj
            rw [hr, h5k] at hj
            simp only [List.take_succ_cons, List.take_nil] at hj
            rcases j with _ | j
            · simp only [List.getElem?_cons_zero, Option.some.injEq] at hj
              subst hj
              have hlm : sp.length + w.length = mid.length := by
                rw [← hsplit, ← hsplit2]; simp
              have hwpos : 0 < w.length := by rw [hsplit2]; simp
              refine ⟨pre.length + sp.length, by simpa using htv2k, ?_, by omega, by omega,
                by omega⟩
              have := cstr_append (pre ++ sp) w post hwnz
              rw [hbuf1, ← hsplit2]
              simpa using this
            · simp at hj
          · rw [hr, h5k]
            simpa using htv2k1
        | cons d m3 =>
          -- a space ends the token
          rw [hm2] at hsplit2
          have hd : d = 32 := dropWhile_nonspace_head (c :: m1) d m3 hm2
          subst hd
          have hr : runs mid = w :: runs m3 := by
            rw [runs_eq, hm1]; simp only [hw, hm2, runs_space]
          have hi2 : ((pre.length + sp.length + w.length : Nat) : Int) < n := by
            rw [hn1, ← hsplit2]; simp
          have hbuf2 : pre ++ mid ++ 0 :: post =
              (pre ++ sp ++ w) ++ 32 :: (m3 ++ 0 :: post) := by
            rw [hbuf1, ← hsplit2]; simp
          have hset : setAt (pre ++ mid ++ 0 :: post) (pre.length + sp.length + w.length) 0 =
              some ((pre ++ sp ++ w ++ [0]) ++ m3 ++ 0 :: post) := by
            have := setAt_after (pre ++ sp ++ w) 32 0 (m3 ++ 0 :: post)
            rw [hbuf2]
            simpa [Nat.add_assoc] using this
          have hn3 : n = ((pre ++ sp ++ w ++ [0]).length : Int) + m3.length := by
            rw [hn1, ← hsplit2]; simp; omega
          have hnz3 : ∀ x ∈ m3, x ≠ 0 := fun x hx =>
            hnz1 x (by rw [← hsplit2]; simp [hx])
          obtain ⟨mid3, tv', hres, hlen3, htvlen, hpres, htok, hterm⟩ :=
            ih (k + 1) (pre ++ sp ++ w ++ [0]) m3 post tv2 n hn3 hnz3 htv2len (by omega)
              (by omega) htv2k1
          have hidx : pre.length + sp.length + w.length + 1 = (pre ++ sp ++ w ++ [0]).length := by
            simp only [List.length_append, List.length_singleton]
          have hlm : sp.length + w.length + 1 + m3.length = mid.length := by
            rw [← hsplit, ← hsplit2]; simp; omega
          refine ⟨sp ++ w ++ [0] ++ mid3, tv', ?_, ?_, htvlen, ?_, ?_, ?_⟩
          · simp only [if_pos hi2, hset, hidx, hres]
            simp
          · rw [← hsplit, ← hsplit2]; simp [hlen3]
          · intro j hj
            rw [hpres j (by omega)]; exact htv2lt j hj
          · intro j w' hj
            rw [hr, h5k] at hj
            simp only [List.take_succ_cons] at hj
            rcases j with _ | j
            · simp only [List.getElem?_cons_zero, Option.some.injEq] at hj
              subst hj
              refine ⟨pre.length + sp.length, ?_, ?_, by omega, by omega, by omega⟩
              · rw [Nat.add_zero, hpres k (by omega)]; exact htv2k
              · have := cstr_append (pre ++ sp) w (mid3 ++ 0 :: post) hwnz
                simpa using this
            · simp only [List.getElem?_cons_succ] at hj
              obtain ⟨p, hp1, hp2, hp3, hp4, hp5⟩ := htok j w' hj
              simp only [List.length_append, List.length_singleton] at hp3 hp4 hp5
              refine ⟨p, ?_, ?_, by omega, by omega, by omega⟩
              · rw [← hp1]; congr 1; omega
              · rw [← hp2]; congr 1; simp
          · rw [hr, h5k]
            simp only [List.take_succ_cons, List.length_cons]
            rw [← hterm]; congr 1; omega

/-- The `while` loop of `tokenizeCmdBuf`, entered at the start of a stretch
`mid` of non-NUL bytes that ends at `cmd_len`, with a NUL behind it and `k`
tokens recorded: it records the first `5 - k` runs of `mid` from entry `k` on,
each pointer at a C string equal to its run, writes NULL behind the last one,
and changes the buffer only inside the stretch. -/
theorem tokenizeLoop_spec : ∀ (fuel k : Nat) (pre mid post : List Nat)
    (tv : List (Option Nat)) (n : Int),
    n = (pre.length : Int) + mid.length → (∀ c ∈ mid, c ≠ 0) → tv.length = 6 → k ≤ 5 →
    5 - k < fuel → tv[k]? = some none →
    ∃ mid' tv', tokenizeLoop n fuel k pre.length (pre ++ mid ++ 0 :: post) tv =
        some (pre ++ mid' ++ 0 :: post, tv') ∧
      mid'.length = mid.length ∧ tv'.length = 6 ∧ (∀ j, j < k → tv'[j]? = tv[j]?) ∧
      (∀ j w, ((runs mid).take (5 - k))[j]? = some w →
        ∃ p, tv'[k + j]? = some (some p) ∧ cstr (pre ++ mid' ++ 0 :: post) p = some w) ∧
      tv'[k + ((runs mid).take (5 - k)).length]? = some none := by
  intro fuel k pre mid post tv n hn hnz htv hk hf hnone
  obtain ⟨mid', tv', hres, hlen, htvlen, hpres, htok, hterm⟩ :=
    tokenizeLoop_inv fuel k pre mid post tv n hn hnz htv hk hf hnone
  refine ⟨mid', tv', hres, hlen, htvlen, hpres, ?_, hterm⟩
  intro j w hj
  obtain ⟨p, hp1, hp2, -⟩ := htok j w hj
  exact ⟨p, hp1, hp2⟩

/-- C5: for a command line of non-NUL bytes with a NUL behind it,
`tokenizeCmdBuf` returns with the length reset to 0 and a token vector whose
entries list, in order, the first five maximal runs of non-space bytes of the
line (all of them if there are fewer), each as a NUL-terminated string equal to
the run, with NULL in the entry behind the last token and in entry 5. -/
theorem tokenizeCmdBuf_tokens (s : Sys E) (line rest : List Nat)
    (hbuf : s.cmd_buf = line ++ 0 :: rest) (hcl : s.cmd_len = line.length)
    (hnz : ∀ c ∈ line, c ≠ 0) (htv : s.cmd_tokenv.length = 6) :
    ∃ s', tokenizeCmdBuf s = some s' ∧ s'.cmd_len = 0 ∧
      (∀ i w, ((runs line).take 5)[i]? = some w → tokenStr s' i = some w) ∧
      s'.cmd_tokenv[((runs line).take 5).length]? = some none ∧
      s'.cmd_tokenv[5]? = some none ∧
      s'.cmd_tokenv.length = 6 ∧ s'.cmd_buf.length = s.cmd_buf.length := by
  have htv0 : setAt s.cmd_tokenv 0 none = some (s.cmd_tokenv.set 0 none) := by
    simp [setAt, htv]
  obtain ⟨mid', tv', hres, hlen, htvlen, -, htok, hterm⟩ :=
    tokenizeLoop_spec (MAX_TOKENS + 1) 0 [] line rest (s.cmd_tokenv.set 0 none) s.cmd_len
      (by simp [hcl]) hnz (by simp [htv]) (by omega) (by simp [MAX_TOKENS])
      (by simp [List.getElem?_set, htv])
  simp only [List.length_nil, List.nil_append, Nat.sub_zero, Nat.zero_add] at hres htok hterm
  have htv5 : setAt tv' MAX_TOKENS none = some (tv'.set 5 none) := by
    simp [setAt, htvlen, MAX_TOKENS]
  have hle : ((runs line).take 5).length ≤ 5 := by simp
  refine ⟨{ s with cmd_buf := mid' ++ 0 :: rest, cmd_tokenv := tv'.set 5 none, cmd_len := 0 },
    ?_, rfl, ?_, ?_, ?_, ?_, ?_⟩
  · simp only [tokenizeCmdBuf, htv0, hbuf, hres, htv5]
  · intro i w hi
    obtain ⟨p, hp1, hp2⟩ := htok i w hi
    have hi5 : i < 5 := by
      have := (List.getElem?_eq_some_iff.1 hi).1
      omega
    have h5i : 5 ≠ i := by omega
    simp only [tokenStr, List.getElem?_set, if_neg h5i, hp1, hp2]
  · by_cases h5 : 5 = ((runs line).take 5).length
    · rw [← h5]; simp [List.getElem?_set, htvlen]
    · simp only [List.getElem?_set, if_neg h5]; exact hterm
  · simp [List.getElem?_set, htvlen]
  · simp [htvlen]
  · simp [hbuf, hlen]

theorem tokenizeCmdBuf_tokens_witness :
    ∃ s', tokenizeCmdBuf (sysOfLine () Globals.zero (bytes "  read  $FF ")) = some s' ∧
      s'.cmd_len = 0 ∧ tokenStr s' 0 = some (bytes "read") ∧
      tokenStr s' 1 = some (bytes "$FF") ∧ s'.cmd_tokenv[2]? = some none ∧
      s'.cmd_tokenv[5]? = some none := by
  obtain ⟨s', h, hl, htok, hterm, h5, -, -⟩ :=
    tokenizeCmdBuf_tokens (sysOfLine () Globals.zero (bytes "  read  $FF "))
      (bytes "  read  $FF ") (List.replicate 19 0) (by decide) (by decide) (by decide)
      (by decide)
  exact ⟨s', h, hl, htok 0 _ (by decide), htok 1 _ (by decide), hterm, h5⟩

/-- The sample lines of the tokenizer, evaluated: two words between spaces, six
words (the sixth is dropped), a line of spaces and the empty line. -/
theorem tokenizeCmdBuf_samples :
    (tokenizeCmdBuf (sysOfLine () Globals.zero (bytes "  read  $FF "))).map
        (fun s => ([tokenStr s 0, tokenStr s 1], [s.cmd_tokenv[2]?, s.cmd_tokenv[5]?],
          s.cmd_len)) =
      some ([some (bytes "read"), some (bytes "$FF")],
        [some (none : Option Nat), some (none : Option Nat)], (0 : Int)) ∧
    (tokenizeCmdBuf (sysOfLine () Globals.zero (bytes "a bc d e fg h"))).map
        (fun s => ((List.range 5).map (tokenStr s), s.cmd_tokenv[5]?, s.cmd_len)) =
      some ([some (bytes "a"), some (bytes "bc"), some (bytes "d"), some (bytes "e"),
        some (bytes "fg")], some (none : Option Nat), (0 : Int)) ∧
    (tokenizeCmdBuf (sysOfLine () Globals.zero (bytes "   "))).map
        (fun s => (s.cmd_tokenv[0]?, s.cmd_tokenv[5]?, s.cmd_len)) =
      some (some (none : Option Nat), some (none : Option Nat), (0 : Int)) ∧
    (tokenizeCmdBuf (sysOfLine () Globals.zero [])).map
        (fun s => (s.cmd_tokenv[0]?, s.cmd_tokenv[5]?, s.cmd_len)) =
      some (some (none : Option Nat), some (none : Option Nat), (0 : Int)) :=
  ⟨by decide, by decide, by decide, by decide⟩

/-! ## Dispatcher -/

/-- The tokenizer on a state that holds a line: it returns, touches nothing but
the buffer, the token vector and the length, and every recorded pointer is
below the old length, at a C string equal to its run whose NUL is at the old
length at the latest. -/
theorem tokenizeCmdBuf_spec (s : Sys E) (line rest : List Nat)
    (hbuf : s.cmd_buf = line ++ 0 :: rest) (hcl : s.cmd_len = line.length)
    (hnz : ∀ c ∈ line, c ≠ 0) (htv : s.cmd_tokenv.length = 6) :
    ∃ s', tokenizeCmdBuf s = some s' ∧ s'.cmd_len = 0 ∧
      s'.g = s.g ∧ s'.env = s.env ∧ s'.out = s.out ∧ s'.ctl_log = s.ctl_log ∧
      s'.cmd_tokenv.length = 6 ∧ s'.cmd_buf.length = s.cmd_buf.length ∧
      (∀ (i : Nat) (w : List Nat), ((runs line).take 5)[i]? = some w →
        ∃ p : Nat, s'.cmd_tokenv[i]? = some (some p) ∧ cstr s'.cmd_buf p = some w ∧
          p < line.length ∧ p + w.length ≤ line.length) ∧
      s'.cmd_tokenv[((runs line).take 5).length]? = some none ∧
      s'.cmd_tokenv[5]? = some none := by
  have htv0 : setAt s.cmd_tokenv 0 none = some (s.cmd_tokenv.set 0 none) := by
    simp [setAt, htv]
  obtain ⟨mid', tv', hres, hlen, htvlen, -, htok, hterm⟩ :=
    tokenizeLoop_inv (MAX_TOKENS + 1) 0 [] line rest (s.cmd_tokenv.set 0 none) s.cmd_len
      (by simp [hcl]) hnz (by simp [htv]) (by omega) (by simp [MAX_TOKENS])
      (by simp [List.getElem?_set, htv])
  simp only [List.length_nil, List.nil_append, Nat.sub_zero, Nat.zero_add] at hres htok hterm
  have htv5 : setAt tv' MAX_TOKENS none = some (tv'.set 5 none) := by
    simp [setAt, htvlen, MAX_TOKENS]
  have hle : ((runs line).take 5).length ≤ 5 := by simp
  refine ⟨{ s with cmd_buf := mid' ++ 0 :: rest, cmd_tokenv := tv'.set 5 none, cmd_len := 0 },
    ?_, rfl, rfl, rfl, rfl, rfl, ?_, ?_, ?_, ?_, ?_⟩
  · simp only [tokenizeCmdBuf, htv0, hbuf, hres, htv5]
  · simp [htvlen]
  · simp [hbuf, hlen]
  · intro i w hi
    obtain ⟨p, hp1, hp2, -, hp4, hp5⟩ := htok i w hi
    have hi5 : i < 5 := by
      have := (List.getElem?_eq_some_iff.1 hi).1
      omega
    have h5i : 5 ≠ i := by omega
    exact ⟨p, by simp only [List.getElem?_set, if_neg h5i, hp1], hp2, hp4, hp5⟩
  · by_cases h5 : 5 = ((runs line).take 5).length
    · rw [← h5]; simp [List.getElem?_set, htvlen]
    · simp only [List.getElem?_set, if_neg h5]; exact hterm
  · simp [List.getElem?_set, htvlen]

/-- The counting loop on a token vector with `m` pointers and NULL behind them. -/
theorem countTokens_spec (tv : List (Option Nat)) (m : Nat) (hm : m ≤ 5)
    (hsome : ∀ i, i < m → ∃ p, tv[i]? = some (some p)) (hnone : tv[m]? = some none) :
    ∀ (fuel k : Nat), k ≤ m → m - k < fuel → countTokens tv fuel k = some m := by
  intro fuel
  induction fuel with
  | zero => intro k _ hf; omega
  | succ f ih =>
    intro k hk hf
    by_cases hkm : k = m
    · subst hkm
      simp [countTokens, hnone]
    · have hlt : k < m := by omega
      obtain ⟨p, hp⟩ := hsome k hlt
      have h5 : k < MAX_TOKENS := by simp only [MAX_TOKENS]; omega
      simp only [countTokens, hp, if_pos h5]
      exact ih (k + 1) (by omega) (by omega)

/-- `processCommand` on a state that holds a line with at least one token: the
dispatcher runs on the tokenized state with token 0 and the token count, capped
at 5, and the prompt is issued on what it returns. -/
theorem processCommand_tokens (B : Board E) (fuel : Nat) (s : Sys E) (line rest : List Nat)
    (hbuf : s.cmd_buf = line ++ 0 :: rest) (hcl : s.cmd_len = line.length)
    (hnz : ∀ c ∈ line, c ≠ 0) (htv : s.cmd_tokenv.length = 6)
    (cmd : List Nat) (others : List (List Nat)) (hruns : runs line = cmd :: others) :
    ∃ st, tokenizeCmdBuf s = some st ∧ st.cmd_len = 0 ∧
      st.g = s.g ∧ st.env = s.env ∧ st.out = s.out ∧ st.ctl_log = s.ctl_log ∧
      st.cmd_tokenv.length = 6 ∧ st.cmd_buf.length = s.cmd_buf.length ∧
      (∀ i w, ((runs line).take 5)[i]? = some w → tokenStr st i = some w) ∧
      st.cmd_tokenv[min 5 (others.length + 1)]? = some none ∧
      processCommand B fuel s =
        match dispatch B fuel cmd (min 5 (others.length + 1)) st with
        | none => none
        | some s1 => startSerialPrompt s1 := by
  obtain ⟨st, hst, hlen0, hg, he, ho, hl, htvl, hbl, htok, hterm, -⟩ :=
    tokenizeCmdBuf_spec s line rest hbuf hcl hnz htv
  have hm : ((runs line).take 5).length = min 5 (others.length + 1) := by
    rw [hruns, List.length_take, List.length_cons]
  have htokS : ∀ i w, ((runs line).take 5)[i]? = some w → tokenStr st i = some w := by
    intro i w hi
    obtain ⟨p, hp1, hp2, -⟩ := htok i w hi
    simp only [tokenStr, hp1, hp2]
  have hcount : countTokens st.cmd_tokenv (MAX_TOKENS + 1) 0 = some (min 5 (others.length + 1)) := by
    apply countTokens_spec st.cmd_tokenv _ (by omega) _ (by rw [← hm]; exact hterm) _ _
      (by omega) (by simp only [MAX_TOKENS]; omega)
    intro i hi
    rw [← hm] at hi
    obtain ⟨p, hp1, -⟩ := htok i _ (List.getElem?_eq_getElem hi)
    exact ⟨p, hp1⟩
  have h0 : tokenStr st 0 = some cmd := htokS 0 cmd (by simp [hruns])
  have hne : ¬ min 5 (others.length + 1) = 0 := by omega
  refine ⟨st, hst, hlen0, hg, he, ho, hl, htvl, hbl, htokS, by rw [← hm]; exact hterm, ?_⟩
  simp only [processCommand, hst, hcount, if_neg hne, h0]

/-- The bytes of a C string read from a buffer are not NUL. -/
theorem cstrOf_nz : ∀ (l w : List Nat), cstrOf l = some w → ∀ c ∈ w, c ≠ 0 := by
  intro l
  induction l with
  | nil => intro w h; simp [cstrOf] at h
  | cons a l ih =>
    intro w h
    by_cases ha : a = 0
    · simp only [cstrOf, if_pos ha, Option.some.injEq] at h
      subst h; simp
    · simp only [cstrOf, if_neg ha, Option.map_eq_some'] at h
      obtain ⟨w', hw', rfl⟩ := h
      intro c hc
      rcases List.mem_cons.1 hc with rfl | hc
      · exact ha
      · exact ih w' hw' c hc

/-- On a C string `strprefixeq` is the prefix-or-exact rule. -/
theorem strprefixeq_matchesWord (a b : List Nat) (ha : ∀ c ∈ a, c ≠ 0) :
    strprefixeq a b = matchesWord a b := by
  rcases a with _ | ⟨c, _ | ⟨d, r⟩⟩
  · cases b <;> simp [strprefixeq, matchesWord, charAt]
  · have hc : c ≠ 0 := ha c (by simp)
    rcases b with _ | ⟨e, b⟩
    · simp [strprefixeq, matchesWord, charAt, hc]
    · by_cases hce : c = e
      · subst hce
        simp [strprefixeq, matchesWord, charAt, hc]
      · simp [strprefixeq, matchesWord, charAt, hc, hce]
  · have hd : d ≠ 0 := ha d (by simp)
    simp [strprefixeq, matchesWord, charAt, hd]

/-- C11: for a typed token `a` (a C string) and a command word `b`,
`strprefixeq a b` is true exactly when `a` equals `b` or `a` is one character
long and that character is the first one of `b`. -/
theorem strprefixeq_iff (a b : List Nat) (ha : ∀ c ∈ a, c ≠ 0) :
    strprefixeq a b = true ↔ (a = b ∨ ∃ c, a = [c] ∧ b.head? = some c) := by
  rw [strprefixeq_matchesWord a b ha]
  simp only [matchesWord, Bool.or_eq_true, decide_eq_true_eq, Bool.and_eq_true]
  constructor
  · rintro (h | ⟨h1, h2⟩)
    · exact Or.inl h
    · rcases a with _ | ⟨c, _ | ⟨d, r⟩⟩
      · simp at h1
      · exact Or.inr ⟨c, rfl, by simpa using h2.symm⟩
      · simp at h1
  · rintro (h | ⟨c, rfl, h⟩)
    · exact Or.inl h
    · exact Or.inr ⟨rfl, by simp [h]⟩

theorem strprefixeq_iff_witness :
    (strprefixeq (bytes "p") (bytes "print") = true ↔
      (bytes "p" = bytes "print" ∨ ∃ c, bytes "p" = [c] ∧ (bytes "print").head? = some c)) ∧
    strprefixeq (bytes "p") (bytes "print") = true ∧
    strprefixeq (bytes "print") (bytes "print") = true ∧
    strprefixeq (bytes "pr") (bytes "print") = false ∧
    strprefixeq (bytes "P") (bytes "print") = false ∧
    strprefixeq (bytes "") (bytes "print") = false :=
  ⟨strprefixeq_iff (bytes "p") (bytes "print") (by decide), by decide, by decide, by decide,
    by decide, by decide⟩


/-- `startSerialPrompt` on a state whose buffer has room for the NUL. -/
theorem startSerialPrompt_spec (s : Sys E) (h : 0 < s.cmd_buf.length) :
    startSerialPrompt s = some (SerialState.readingCommandState,
      { s with cmd_buf := s.cmd_buf.set 0 0, cmd_len := 0, out := s.out ++ bytes "> " }) := by
  simp [startSerialPrompt, setAt, h, Sys.print]

/-- `printHelp` writes the help text and changes nothing else. -/
theorem printHelp_spec (s : Sys E) : printHelp s = { s with out := s.out ++ helpText } := by
  have e : bytes "" = [] := rfl
  simp [printHelp, Sys.println, helpText, e]

/-- A row with an exact token count that does not apply: the condition of the
source is false. -/
theorem row_exact_false (m : Bool) (n k : Nat)
    (h : (m && decide (k ≤ n) && decide (n ≤ k)) = false) : (m && n == k) = false := by
  cases m
  · rfl
  · simp only [Bool.true_and, Bool.and_eq_false_iff, decide_eq_false_iff_not] at h
    simp only [Bool.true_and, beq_eq_false_iff_ne, ne_eq]
    omega

/-- A row with one or two tokens that does not apply to at least one token: the
condition of the source is false. -/
theorem row_upto_false (m : Bool) (n : Nat) (hn : 1 ≤ n)
    (h : (m && decide (1 ≤ n) && decide (n ≤ 2)) = false) : (m && decide (n ≤ 2)) = false := by
  cases m
  · rfl
  · simp only [Bool.true_and, Bool.and_eq_false_iff, decide_eq_false_iff_not] at h
    simp only [Bool.true_and, decide_eq_false_iff_not]
    omega

/-- When no row of the command table applies, the `if` chain ends in its last
branch. -/
theorem dispatch_unknown (B : Board E) (fuel : Nat) (cmd : List Nat) (n : Nat) (s : Sys E)
    (hcmd : ∀ c ∈ cmd, c ≠ 0) (hn : 1 ≤ n)
    (hno : ∀ r ∈ commandTable, r.applies cmd n = false) :
    dispatch B fuel cmd n s = some (printHelp (s.println (bytes "unknown command"))) := by
  simp only [commandTable, List.forall_mem_cons, List.not_mem_nil, forall_const,
    CommandRow.applies, Bool.false_eq_true, if_false, if_true, IsEmpty.forall_iff,
    implies_true, and_true] at hno
  obtain ⟨h1, h2, h3, h4, h5, h6, h7, h8, h9, h10, h11, h12⟩ := hno
  have e := fun w => strprefixeq_matchesWord cmd w hcmd
  simp only [dispatch, e, row_exact_false _ _ _ h1, row_exact_false _ _ _ h2,
    row_exact_false _ _ _ h3, row_upto_false _ _ hn h4, row_upto_false _ _ hn h5,
    row_exact_false _ _ _ h6, row_exact_false _ _ _ h7, row_exact_false _ _ _ h8,
    row_exact_false _ _ _ h9, row_exact_false _ _ _ h10, row_exact_false _ _ _ h11,
    row_exact_false _ _ _ h12, Bool.false_eq_true, if_false]

/-- The string of a recorded token has no NUL among its bytes. -/
theorem tokenStr_nz (s : Sys E) (i : Nat) (w : List Nat) (h : tokenStr s i = some w) :
    ∀ c ∈ w, c ≠ 0 := by
  unfold tokenStr at h
  split at h
  · exact cstrOf_nz _ _ h
  · cases h

/-- C13: a submitted line with at least one token to which no row of the command
table applies makes `processCommand` print `unknown command` and the help text,
leave the signal state alone, not call `controlLoop`, and issue the prompt with
an empty command line. -/
theorem unknown_command (B : Board E) (fuel : Nat) (s : Sys E) (line rest : List Nat)
    (hbuf : s.cmd_buf = line ++ 0 :: rest) (hcl : s.cmd_len = line.length)
    (hnz : ∀ c ∈ line, c ≠ 0) (htv : s.cmd_tokenv.length = 6)
    (cmd : List Nat) (others : List (List Nat)) (hruns : runs line = cmd :: others)
    (hno : ∀ r ∈ commandTable, r.applies cmd (min 5 (others.length + 1)) = false) :
    ∃ s', processCommand B fuel s = some (SerialState.readingCommandState, s') ∧
      s'.g = s.g ∧ s'.env = s.env ∧ s'.ctl_log = s.ctl_log ∧
      s'.out = s.out ++ bytes "unknown command" ++ crlf ++ helpText ++ bytes "> " ∧
      s'.cmd_len = 0 ∧ s'.cmd_buf[0]? = some 0 := by
  obtain ⟨st, -, -, hg, he, ho, hl, -, hbl, htok, -, hpc⟩ :=
    processCommand_tokens B fuel s line rest hbuf hcl hnz htv cmd others hruns
  have hcmd : ∀ c ∈ cmd, c ≠ 0 := tokenStr_nz st 0 cmd (htok 0 cmd (by simp [hruns]))
  have hpos : 0 < st.cmd_buf.length := by rw [hbl, hbuf]; simp
  have hs := startSerialPrompt_spec (printHelp (st.println (bytes "unknown command")))
    (by simpa [printHelp_spec, Sys.println] using hpos)
  rw [hpc, dispatch_unknown B fuel cmd _ st hcmd (by omega) hno]
  refine ⟨_, hs, ?_, ?_, ?_, ?_, rfl, ?_⟩
  · simpa [printHelp_spec, Sys.println] using hg
  · simpa [printHelp_spec, Sys.println] using he
  · simpa [printHelp_spec, Sys.println] using hl
  · simp [printHelp_spec, Sys.println, ho]
  · simp [printHelp_spec, Sys.println, List.getElem?_set, hpos]

theorem unknown_command_witness :
    ∃ s', processCommand (stubBoard 0) 0 (sysOfLine () busyGlobals (bytes "halt x")) =
        some (SerialState.readingCommandState, s') ∧
      s'.g = busyGlobals ∧ s'.ctl_log = [] ∧
      s'.out = bytes "unknown command" ++ crlf ++ helpText ++ bytes "> " ∧ s'.cmd_len = 0 := by
  obtain ⟨s', h, hg, -, hl, ho, hc, -⟩ :=
    unknown_command (stubBoard 0) 0 (sysOfLine () busyGlobals (bytes "halt x"))
      (bytes "halt x") (List.replicate 25 0) (by decide) (by decide) (by decide) (by decide)
      (bytes "halt") [bytes "x"] (by decide) (by decide)
  exact ⟨s', h, hg, hl, by simpa [sysOfLine] using ho, hc⟩

/-- The spec's sample lines for which no command row applies. -/
theorem unknown_command_samples :
    [bytes "pr", bytes "halt x", bytes "r a b c", bytes "a 5", bytes "reset now"].all
      (fun line => match runs line with
        | [] => false
        | cmd :: others =>
          commandTable.all (fun r => !r.applies cmd (min 5 (others.length + 1)))) = true := by
  decide

/-- Negating a flag twice gives the signal state back. -/
theorem Toggle.flip_flip (t : Toggle) (g : Globals) : t.flip (t.flip g) = g := by
  cases t <;> simp [Toggle.flip]

/-- The words of the toggle commands are C strings. -/
theorem Toggle.words_nz (t : Toggle) (cmd : List Nat) (h : cmd ∈ t.words) :
    ∀ c ∈ cmd, c ≠ 0 := by
  cases t <;> simp only [Toggle.words, List.mem_cons, List.not_mem_nil, or_false] at h <;>
    rcases h with rfl | rfl <;> decide

/-- The `if` chain on a toggle word as the only token: the flag is negated and
its new value reported. -/
theorem dispatch_toggle (B : Board E) (fuel : Nat) (t : Toggle) (cmd : List Nat)
    (h : cmd ∈ t.words) (s : Sys E) :
    dispatch B fuel cmd 1 s =
      some { s with g := t.flip s.g, out := s.out ++ t.report (t.flip s.g) ++ crlf } := by
  cases t <;> simp only [Toggle.words, List.mem_cons, List.not_mem_nil, or_false] at h <;>
    rcases h with rfl | rfl <;>
    simp [dispatch, strprefixeq, charAt, bytes, Toggle.flip, Toggle.report, Sys.print,
      Sys.println]

/-- One submitted toggle line. -/
theorem toggle_once (B : Board E) (fuel : Nat) (s : Sys E) (line rest : List Nat)
    (hbuf : s.cmd_buf = line ++ 0 :: rest) (hcl : s.cmd_len = line.length)
    (hnz : ∀ c ∈ line, c ≠ 0) (htv : s.cmd_tokenv.length = 6)
    (t : Toggle) (cmd : List Nat) (hruns : runs line = [cmd]) (hcmd : cmd ∈ t.words) :
    ∃ s', processCommand B fuel s = some (SerialState.readingCommandState, s') ∧
      s'.g = t.flip s.g ∧ s'.env = s.env ∧ s'.ctl_log = s.ctl_log ∧
      s'.out = s.out ++ t.report (t.flip s.g) ++ crlf ++ bytes "> " ∧ s'.cmd_len = 0 := by
  obtain ⟨st, -, -, hg, he, ho, hl, -, hbl, -, -, hpc⟩ :=
    processCommand_tokens B fuel s line rest hbuf hcl hnz htv cmd [] hruns
  have hpos : 0 < st.cmd_buf.length := by rw [hbl, hbuf]; simp
  have hs := startSerialPrompt_spec
    ({ st with g := t.flip st.g, out := st.out ++ t.report (t.flip st.g) ++ crlf } : Sys E) hpos
  have hd := dispatch_toggle B fuel t cmd hcmd st
  simp only [List.length_nil, Nat.zero_add, Nat.min_def] at hpc
  rw [if_neg (by omega)] at hpc
  rw [hpc, hd]
  refine ⟨_, hs, ?_, he, hl, ?_, rfl⟩
  · simp [hg]
  · simp [hg, ho]

/-- C12: a submitted line whose only token is a toggle word (`halt`, `h`,
`reset`, `be`, `b`, `rw`, `r`) makes `processCommand` negate the flag of that
command and no other field of the signal state, not call `controlLoop`, and
report the new value of the flag; a second submitted line with a word of the
same command gives the signal state back. -/
theorem toggle_command (B : Board E) (fuel : Nat) (s : Sys E) (line rest : List Nat)
    (hbuf : s.cmd_buf = line ++ 0 :: rest) (hcl : s.cmd_len = line.length)
    (hnz : ∀ c ∈ line, c ≠ 0) (htv : s.cmd_tokenv.length = 6)
    (t : Toggle) (cmd : List Nat) (hruns : runs line = [cmd]) (hcmd : cmd ∈ t.words) :
    ∃ s', processCommand B fuel s = some (SerialState.readingCommandState, s') ∧
      s'.g = t.flip s.g ∧ s'.env = s.env ∧ s'.ctl_log = s.ctl_log ∧
      s'.out = s.out ++ t.report (t.flip s.g) ++ crlf ++ bytes "> " ∧ s'.cmd_len = 0 ∧
      ∀ (s2 : Sys E) (line2 rest2 cmd2 : List Nat),
        s2.cmd_buf = line2 ++ 0 :: rest2 → s2.cmd_len = line2.length →
        (∀ c ∈ line2, c ≠ 0) → s2.cmd_tokenv.length = 6 → runs line2 = [cmd2] →
        cmd2 ∈ t.words → s2.g = s'.g →
        ∃ s'', processCommand B fuel s2 = some (SerialState.readingCommandState, s'') ∧
          s''.g = s.g ∧ s''.ctl_log = s2.ctl_log := by
  obtain ⟨s', h, hg, he, hl, ho, hc⟩ :=
    toggle_once B fuel s line rest hbuf hcl hnz htv t cmd hruns hcmd
  refine ⟨s', h, hg, he, hl, ho, hc, ?_⟩
  intro s2 line2 rest2 cmd2 hbuf2 hcl2 hnz2 htv2 hruns2 hcmd2 hg2
  obtain ⟨s'', h', hg', -, hl', -, -⟩ :=
    toggle_once B fuel s2 line2 rest2 hbuf2 hcl2 hnz2 htv2 t cmd2 hruns2 hcmd2
  exact ⟨s'', h', by rw [hg', hg2, hg, Toggle.flip_flip], hl'⟩

theorem toggle_command_witness :
    ∃ s', processCommand (stubBoard 0) 0 (sysOfLine () busyGlobals (bytes " h ")) =
        some (SerialState.readingCommandState, s') ∧
      s'.g = { busyGlobals with halt := false } ∧ s'.ctl_log = [] ∧
      s'.out = bytes "halt off\r\n> " ∧
      ∃ s'', processCommand (stubBoard 0) 0 (sysOfLine () s'.g (bytes "halt")) =
          some (SerialState.readingCommandState, s'') ∧ s''.g = busyGlobals := by
  obtain ⟨s', h, hg, -, hl, ho, -, htwice⟩ :=
    toggle_command (stubBoard 0) 0 (sysOfLine () busyGlobals (bytes " h "))
      (bytes " h ") (List.replicate 28 0) (by decide) (by decide) (by decide) (by decide)
      Toggle.halt (bytes "h") (by decide) (by decide)
  obtain ⟨s'', h2, hg2, -⟩ :=
    htwice (sysOfLine () s'.g (bytes "halt")) (bytes "halt") (List.replicate 27 0)
      (bytes "halt") rfl rfl (by decide) rfl (by decide) (by decide) rfl
  refine ⟨s', h, ?_, hl, ?_, s'', h2, hg2⟩
  · rw [hg]; decide
  · rw [ho]; decide


/-- The `if` chain of `processCommand` is the first match among the twelve
conditions, paired with the twelve actions. -/
theorem dispatch_firstMatch (B : Board E) (fuel : Nat) (cmd : List Nat) (n : Nat) (s : Sys E) :
    dispatch B fuel cmd n s =
      firstMatch ((commandConds cmd n).zip (commandActions B fuel s))
        (some (printHelp (s.println (bytes "unknown command")))) := rfl

/-- A chain in which one condition holds and no other takes the action of that
condition, wherever it stands. -/
theorem firstMatch_unique {α : Type} : ∀ (l : List (Bool × α)) (d : α) (i : Nat) (a : α),
    l[i]? = some (true, a) → (∀ j b, l[j]? = some (true, b) → j = i) →
    firstMatch l d = a := by
  intro l
  induction l with
  | nil => intro d i a h; simp at h
  | cons x rest ih =>
    intro d i a h huniq
    obtain ⟨c, b⟩ := x
    rcases i with _ | i
    · simp only [List.getElem?_cons_zero, Option.some.injEq, Prod.mk.injEq] at h
      obtain ⟨rfl, rfl⟩ := h
      simp [firstMatch]
    · have hc : c = false := by
        cases c
        · rfl
        · have := huniq 0 b (by simp)
          omega
      subst hc
      simp only [firstMatch, Bool.false_eq_true, if_false]
      apply ih d i a (by simpa using h)
      intro j b' hj
      have := huniq (j + 1) b' (by simpa using hj)
      omega

/-- A token that `strprefixeq` accepts for a word starts like the word. -/
theorem strprefixeq_initial (a b : List Nat) (h : strprefixeq a b = true) :
    charAt a 0 = charAt b 0 := by
  unfold strprefixeq at h
  split at h
  · rename_i hc; exact hc.2.1
  · rw [decide_eq_true_eq] at h; rw [h]

/-- A condition that holds fixes the first character of token 0. -/
theorem commandConds_initial (cmd : List Nat) (n i : Nat)
    (h : (commandConds cmd n)[i]? = some true) :
    commandInitials[i]? = some (charAt cmd 0) := by
  have hs : ∀ (w : List Nat) (c : Bool), (strprefixeq cmd w && c) = true →
      charAt w 0 = charAt cmd 0 := by
    intro w c hc
    rw [Bool.and_eq_true] at hc
    exact (strprefixeq_initial cmd w hc.1).symm
  have he : ∀ (w : List Nat) (c : Bool), (decide (cmd = w) && c) = true →
      charAt w 0 = charAt cmd 0 := by
    intro w c hc
    rw [Bool.and_eq_true, decide_eq_true_eq] at hc
    rw [hc.1]
  rcases i with _ | _ | _ | _ | _ | _ | _ | _ | _ | _ | _ | _ | i <;>
    simp only [commandConds, List.getElem?_cons_zero, List.getElem?_cons_succ,
      Option.some.injEq, List.getElem?_nil] at h
  · exact congrArg some (hs _ _ h)
  · exact congrArg some (hs _ _ h)
  · exact congrArg some (hs _ _ h)
  · exact congrArg some (hs _ _ h)
  · exact congrArg some (hs _ _ h)
  · exact congrArg some (he _ _ h)
  · exact congrArg some (hs _ _ h)
  · exact congrArg some (hs _ _ h)
  · exact congrArg some (he _ _ h)
  · exact congrArg some (he _ _ h)
  · exact congrArg some (hs _ _ h)
  · exact congrArg some (hs _ _ h)
  · cases h

/-- Two command words share their first character only among `reset`, `rw`
and `read`. -/
theorem commandInitials_clash : ∀ i, i < 12 → ∀ j, j < 12 →
    commandInitials[i]? = commandInitials[j]? →
    i = j ∨ ((i = 5 ∨ i = 7 ∨ i = 11) ∧ (j = 5 ∨ j = 7 ∨ j = 11)) := by
  intro i hi j hj h
  interval_cases i <;> interval_cases j <;> simp [commandInitials] at h ⊢

/-- At most one of the twelve conditions holds. -/
theorem commandConds_unique (cmd : List Nat) (n i j : Nat)
    (hi : (commandConds cmd n)[i]? = some true) (hj : (commandConds cmd n)[j]? = some true) :
    i = j := by
  have hi12 : i < 12 := (List.getElem?_eq_some_iff.1 hi).1
  have hj12 : j < 12 := (List.getElem?_eq_some_iff.1 hj).1
  have hc := commandInitials_clash i hi12 j hj12
    (by rw [commandConds_initial cmd n i hi, commandConds_initial cmd n j hj])
  rcases hc with h | ⟨h1, h2⟩
  · exact h
  · have hrw : strprefixeq (bytes "reset") (bytes "rw") = false := by decide
    rcases h1 with rfl | rfl | rfl <;> rcases h2 with rfl | rfl | rfl <;>
      first
        | rfl
        | (simp only [commandConds, List.getElem?_cons_zero, List.getElem?_cons_succ,
            Option.some.injEq, Bool.and_eq_true, decide_eq_true_eq, beq_iff_eq] at hi hj
           first
             | omega
             | (exfalso
                first
                  | (rw [hi.1, hrw] at hj; simp at hj)
                  | (rw [hj.1, hrw] at hi; simp at hi)))

/-- C20: for every token 0 and token count at most one of the twelve conditions
of `processCommand` holds, and the chain takes the action of the condition that
holds, whatever its place; the token `r` satisfies the `rw` condition alone as
the only token, the `read` condition alone with one argument, and never the
`reset` condition. -/
theorem command_conditions_exclusive (B : Board E) (fuel : Nat) (cmd : List Nat) (n : Nat)
    (s : Sys E) :
    (∀ i j : Nat, (commandConds cmd n)[i]? = some true →
      (commandConds cmd n)[j]? = some true → i = j) ∧
    (∀ (i : Nat) (a : Option (Sys E)), (commandConds cmd n)[i]? = some true →
      (commandActions B fuel s)[i]? = some a → dispatch B fuel cmd n s = a) ∧
    commandConds (bytes "r") 1 =
      [false, false, false, false, false, false, false, true, false, false, false, false] ∧
    commandConds (bytes "r") 2 =
      [false, false, false, false, false, false, false, false, false, false, false, true] ∧
    (commandConds (bytes "r") n)[5]? = some false := by
  refine ⟨fun i j hi hj => commandConds_unique cmd n i j hi hj, ?_, by decide, by decide, ?_⟩
  · intro i a hi ha
    rw [dispatch_firstMatch]
    apply firstMatch_unique _ _ i a
    · rw [List.getElem?_zip_eq_some]
      exact ⟨hi, ha⟩
    · intro j b hj
      rw [List.getElem?_zip_eq_some] at hj
      exact commandConds_unique cmd n j i hj.1 hi
  · have h : decide (bytes "r" = bytes "reset") = false := by decide
    simp [commandConds, h]

theorem command_conditions_exclusive_witness :
    (commandConds (bytes "r") 2)[11]? = some true ∧
    dispatch (stubBoard 0x42) 0 (bytes "r") 2 (sysRead () Globals.zero) =
      performRead (stubBoard 0x42) (sysRead () Globals.zero) :=
  ⟨by decide,
   (command_conditions_exclusive (stubBoard 0x42) 0 (bytes "r") 2 (sysRead () Globals.zero)).2.1
     11 _ (by decide) rfl⟩

/-! ## Argument errors and the step controller -/

/-- C14: on `write 100 FF` the data token `FF` fails to parse, and the line
printed is `invalid data: ` followed by token 1, `100`, not by `FF`. -/
theorem write_invalid_data_message :
    (runs (bytes "write 100 FF"))[2]? = some (bytes "FF") ∧
    (parseLong 32 (bytes "100")).1 = true ∧ (parseLong 32 (bytes "FF")).1 = false ∧
    (processCommand (stubBoard 0) 0 (sysOfLine () Globals.zero (bytes "write 100 FF"))).map
      (fun r => r.2.out) = some (bytes "invalid data: 100\r\n> ") :=
  ⟨by decide, by decide, by decide, by decide⟩

/-- C15: `addr xyz` and `data 12x` print the parse error and then assert the bus
all the same, with the value `strtol` got from the token: the assert flag goes
from false to true and the output value changes. -/
theorem assert_invalid_argument_applied :
    idleGlobals.assert_address = false ∧ idleGlobals.out_address_bus = 0x1234 ∧
    idleGlobals.assert_data = false ∧ idleGlobals.out_data_bus = 0x56 ∧
    (processCommand (stubBoard 0) 0 (sysOfLine () idleGlobals (bytes "addr xyz"))).map
      (fun r => (r.2.g.assert_address, r.2.g.out_address_bus, r.2.out)) =
      some (true, 0, bytes "invalid address: xyz\r\n> ") ∧
    (processCommand (stubBoard 0) 0 (sysOfLine () idleGlobals (bytes "data 12x"))).map
      (fun r => (r.2.g.assert_data, r.2.g.out_data_bus, r.2.out)) =
      some (true, 12, bytes "invalid data: 12x\r\n> ") :=
  ⟨by decide, by decide, by decide, by decide, by decide, by decide⟩

/-- C16: after a count token that fails to parse, the number of step iterations
is the value `strtol` got from the token, not 1: `cycle abc` runs none and
`step 5x` runs five, while `cycle` without a count runs one. -/
theorem step_invalid_count_iterations :
    (processCommand (stubBoard 0) 2 (sysOfLine () Globals.zero (bytes "cycle abc"))).map
      (fun r => (r.2.ctl_log.length, r.2.out)) =
      some (0, bytes "invalid number: abc\r\n> ") ∧
    (processCommand (stubBoard 0) 2 (sysOfLine () Globals.zero (bytes "step 5x"))).map
      (fun r => (r.2.ctl_log.length, r.2.out)) =
      some (5, bytes "invalid number: 5x\r\n> ") ∧
    (processCommand (stubBoard 0) 2 (sysOfLine () Globals.zero (bytes "cycle"))).map
      (fun r => (r.2.ctl_log.length, r.2.out)) = some (1, bytes "> ") :=
  ⟨by decide, by decide, by decide⟩

/-- C17 as stated fails for a count above 1: with a processor that can never be
stepped, `cycle 2` advances `controlLoop` twice and prints the abort message
twice. -/
theorem step_abort_repeats :
    (processCommand haltedBoard 2 (sysOfLine () Globals.zero (bytes "cycle 2"))).map
      (fun r => (r.2.ctl_log.length, r.2.out)) =
      some (2, abortLine ++ abortLine ++ bytes "> ") := by
  decide

/-- One pass of the `while` loop when the processor cannot be stepped after the
advance: one `controlLoop` call, the abort message, the flag forced to none. -/
theorem stepWhile_abort (B : Board E) (fuel : Nat) (s : Sys E) (hfuel : 2 ≤ fuel)
    (hss : s.g.step_state ≠ StepState.SS_NONE)
    (hcan : ∀ e g, B.processorCanBeStepped (B.controlLoop e g).1 (B.controlLoop e g).2 = false) :
    ∃ s', stepWhile B fuel s = some s' ∧ s'.ctl_log = s.ctl_log ++ [s.g] ∧
      s'.out = s.out ++ abortLine ∧ s'.g.step_state = StepState.SS_NONE ∧
      s'.cmd_buf = s.cmd_buf ∧ s'.cmd_tokenv = s.cmd_tokenv ∧ s'.cmd_len = s.cmd_len := by
  obtain ⟨f, rfl⟩ : ∃ f, fuel = f + 2 := ⟨fuel - 2, by omega⟩
  have h := hcan s.env s.g
  refine ⟨{ s with
      env := (B.controlLoop s.env s.g).1,
      g := { (B.controlLoop s.env s.g).2 with step_state := StepState.SS_NONE },
      ctl_log := s.ctl_log ++ [s.g],
      out := s.out ++ bytes "aborting: processor in incorrect state for stepping" ++ crlf },
    ?_, rfl, ?_, rfl, rfl, rfl, rfl⟩
  · simp only [stepWhile, if_pos hss, Sys.controlLoop, h, Bool.not_false, if_true,
      Sys.println, ne_eq, not_true_eq_false, if_false]
  · simp [abortLine]

/-- The `for` loop when the processor can never be stepped: every pass advances
`controlLoop` once and prints the abort message once. -/
theorem stepFor_abort (B : Board E) (fuel : Nat) (is_inst_step : Bool) (hfuel : 2 ≤ fuel)
    (hcan : ∀ e g, B.processorCanBeStepped (B.controlLoop e g).1 (B.controlLoop e g).2 = false) :
    ∀ (n : Nat) (s : Sys E),
    ∃ s', stepFor B fuel is_inst_step n s = some s' ∧
      s'.ctl_log.length = s.ctl_log.length + n ∧ s'.out = s.out ++ repeatBytes n abortLine ∧
      (1 ≤ n → s'.g.step_state = StepState.SS_NONE) := by
  intro n
  induction n with
  | zero => intro s; exact ⟨s, rfl, rfl, by simp [repeatBytes], by omega⟩
  | succ k ih =>
    intro s
    have hss : ({ s with g := { s.g with step_state :=
        if is_inst_step then StepState.SS_INST else StepState.SS_CYCLE } } : Sys E).g.step_state ≠
        StepState.SS_NONE := by
      cases is_inst_step <;> simp
    obtain ⟨s1, h1, hl1, ho1, hs1, -⟩ := stepWhile_abort B fuel _ hfuel hss hcan
    obtain ⟨s2, h2, hl2, ho2, hs2⟩ := ih s1
    refine ⟨s2, ?_, ?_, ?_, ?_⟩
    · simp only [stepFor, h1, h2]
    · rw [hl2, hl1]; simp; omega
    · rw [ho2, ho1]; simp [repeatBytes]
    · intro _
      rcases k with _ | k
      · simp only [stepFor, Option.some.injEq] at h2
        rw [← h2]; exact hs1
      · exact hs2 (by omega)

/-- C17 as amended: for a count `n ≥ 1` (no count token, or a token that parses
to `n`) and a processor that cannot be stepped after any advance,
`performStepCommand` advances `controlLoop` once and prints the abort message
once in each of the `n` iterations, and leaves the step request flag at none. -/
theorem performStepCommand_abort (B : Board E) (fuel : Nat) (is_inst_step : Bool) (s : Sys E)
    (n : Nat) (hn : 1 ≤ n) (hfuel : 2 ≤ fuel)
    (hcount : (s.cmd_tokenv[1]? = some none ∧ n = 1) ∨
      ∃ arg, tokenStr s 1 = some arg ∧ parseLong B.long_bits arg = (true, (n : Int)))
    (hcan : ∀ e g, B.processorCanBeStepped (B.controlLoop e g).1 (B.controlLoop e g).2 = false) :
    ∃ s', performStepCommand B fuel is_inst_step s = some s' ∧
      s'.ctl_log.length = s.ctl_log.length + n ∧ s'.out = s.out ++ repeatBytes n abortLine ∧
      s'.g.step_state = StepState.SS_NONE := by
  obtain ⟨s', h, hl, ho, hs⟩ := stepFor_abort B fuel is_inst_step hfuel hcan n s
  refine ⟨s', ?_, hl, ho, hs hn⟩
  rcases hcount with ⟨h1, rfl⟩ | ⟨arg, h1, hp⟩
  · simp only [performStepCommand, h1, h]
  · unfold tokenStr at h1
    split at h1
    · rename_i p hp1
      simp only [performStepCommand, hp1, h1, hp, Bool.not_true, Bool.false_eq_true, if_false,
        Int.toNat_ofNat, h]
    · cases h1

theorem performStepCommand_abort_witness :
    ∃ s', performStepCommand haltedBoard 2 false
        { sysOfLine () Globals.zero [] with
          cmd_buf := bytes "cycle" ++ [0] ++ bytes "3" ++ List.replicate 25 0,
          cmd_tokenv := [some 0, some 6, none, none, none, none] } = some s' ∧
      s'.ctl_log.length = 3 ∧ s'.out = abortLine ++ abortLine ++ abortLine ∧
      s'.g.step_state = StepState.SS_NONE := by
  obtain ⟨s', h, hl, ho, hs⟩ := performStepCommand_abort haltedBoard 2 false
    { sysOfLine () Globals.zero [] with
      cmd_buf := bytes "cycle" ++ [0] ++ bytes "3" ++ List.replicate 25 0,
      cmd_tokenv := [some 0, some 6, none, none, none, none] } 3 (by decide) (by decide)
    (Or.inr ⟨bytes "3", by decide, by decide⟩) (fun _ _ => rfl)
  refine ⟨s', h, hl, ?_, hs⟩
  rw [ho]; decide

/-- C18: with a count token that parses to 0, `performStepCommand` returns the
state it was entered with: no `controlLoop` call, nothing printed, the step
request flag and the signal state untouched. -/
theorem performStepCommand_zero (B : Board E) (fuel : Nat) (is_inst_step : Bool) (s : Sys E)
    (arg : List Nat) (h1 : tokenStr s 1 = some arg)
    (hp : parseLong B.long_bits arg = (true, 0)) :
    performStepCommand B fuel is_inst_step s = some s := by
  unfold tokenStr at h1
  split at h1
  · rename_i p hp1
    simp only [performStepCommand, hp1, h1, hp, Bool.not_true, Bool.false_eq_true, if_false,
      Int.toNat_zero, stepFor]
  · cases h1

theorem performStepCommand_zero_witness :
    performStepCommand (stubBoard 0) 0 true
        { sysOfLine () busyGlobals [] with
          cmd_buf := bytes "s" ++ [0] ++ bytes "$0" ++ List.replicate 28 0,
          cmd_tokenv := [some 0, some 2, none, none, none, none] } =
      some { sysOfLine () busyGlobals [] with
          cmd_buf := bytes "s" ++ [0] ++ bytes "$0" ++ List.replicate 28 0,
          cmd_tokenv := [some 0, some 2, none, none, none, none] } :=
  performStepCommand_zero (stubBoard 0) 0 true _ (bytes "$0") (by decide) (by decide)

/-- The sample lines with a zero count, through `processCommand`: no advance, no
output but the prompt, the signal state as before. -/
theorem step_zero_samples :
    [bytes "step 0", bytes "cycle 0", bytes "s $0"].all (fun line =>
      (processCommand (stubBoard 0) 0 (sysOfLine () busyGlobals line)).map
        (fun r => (r.2.ctl_log.length, r.2.out, r.2.g)) = some (0, bytes "> ", busyGlobals)) =
      true := by
  decide

/-! ## The line editor keeps the tokenizer inside its arrays -/

/-- The `while` loop of the step controller leaves the command line alone. -/
theorem stepWhile_frame (B : Board E) : ∀ (fuel : Nat) (s s' : Sys E),
    stepWhile B fuel s = some s' → s'.cmd_buf = s.cmd_buf ∧ s'.cmd_tokenv = s.cmd_tokenv := by
  intro fuel
  induction fuel with
  | zero => intro s s' h; simp [stepWhile] at h
  | succ f ih =>
    intro s s' h
    unfold stepWhile at h
    by_cases h1 : s.g.step_state ≠ StepState.SS_NONE
    · rw [if_pos h1] at h
      dsimp only at h
      by_cases h2 : (!B.processorCanBeStepped (s.controlLoop B).env (s.controlLoop B).g) = true
      · rw [if_pos h2] at h
        have := ih _ _ h
        exact this
      · rw [if_neg h2] at h
        have := ih _ _ h
        exact this
    · rw [if_neg h1] at h
      cases h; exact ⟨rfl, rfl⟩

/-- The `for` loop of the step controller leaves the command line alone. -/
theorem stepFor_frame (B : Board E) (fuel : Nat) (b : Bool) : ∀ (n : Nat) (s s' : Sys E),
    stepFor B fuel b n s = some s' → s'.cmd_buf = s.cmd_buf ∧ s'.cmd_tokenv = s.cmd_tokenv := by
  intro n
  induction n with
  | zero => intro s s' h; simp only [stepFor, Option.some.injEq] at h; subst h; exact ⟨rfl, rfl⟩
  | succ k ih =>
    intro s s' h
    simp only [stepFor] at h
    split at h
    · cases h
    · rename_i s1 h1
      obtain ⟨a1, a2⟩ := stepWhile_frame B fuel _ _ h1
      obtain ⟨b1, b2⟩ := ih _ _ h
      exact ⟨b1.trans a1, b2.trans a2⟩

/-- A chain ends in its default or in the action of one of its pairs. -/
theorem firstMatch_mem {α : Type} (l : List (Bool × α)) (d : α) :
    firstMatch l d = d ∨ ∃ x ∈ l, firstMatch l d = x.2 := by
  induction l with
  | nil => exact Or.inl rfl
  | cons x rest ih =>
    obtain ⟨c, a⟩ := x
    cases c
    · rcases ih with h | ⟨y, hy, h⟩
      · exact Or.inl (by simpa [firstMatch] using h)
      · exact Or.inr ⟨y, List.mem_cons_of_mem _ hy, by simpa [firstMatch] using h⟩
    · exact Or.inr ⟨(true, a), List.mem_cons_self _ _, by simp [firstMatch]⟩

/-- A returned state with the command line of `s`. -/
theorem some_frame (s s' x : Sys E) (he : some x = some s')
    (hx : x.cmd_buf = s.cmd_buf ∧ x.cmd_tokenv = s.cmd_tokenv) :
    s'.cmd_buf = s.cmd_buf ∧ s'.cmd_tokenv = s.cmd_tokenv := by
  rw [Option.some.injEq] at he
  rw [← he]; exact hx

/-- `performStepCommand` leaves the command line alone. -/
theorem performStepCommand_frame (B : Board E) (fuel : Nat) (b : Bool) (s s' : Sys E)
    (h : performStepCommand B fuel b s = some s') :
    s'.cmd_buf = s.cmd_buf ∧ s'.cmd_tokenv = s.cmd_tokenv := by
  unfold performStepCommand at h
  split at h
  · cases h
  · have := stepFor_frame B fuel b _ _ _ h
    exact this
  · split at h
    · cases h
    · have := stepFor_frame B fuel b _ _ _ h
      split_ifs at this
      · simpa [Sys.print, Sys.println] using this
      · exact this

/-- `performAssertAddress` leaves the command line alone. -/
theorem performAssertAddress_frame (B : Board E) (s s' : Sys E)
    (h : performAssertAddress B s = some s') :
    s'.cmd_buf = s.cmd_buf ∧ s'.cmd_tokenv = s.cmd_tokenv := by
  unfold performAssertAddress at h
  split at h
  · cases h
  · split_ifs at h
    · exact some_frame s s' _ h (by dsimp only; split_ifs <;> exact ⟨rfl, rfl⟩)
    · exact some_frame s s' _ h ⟨rfl, rfl⟩

/-- `performAssertData` leaves the command line alone. -/
theorem performAssertData_frame (B : Board E) (s s' : Sys E)
    (h : performAssertData B s = some s') :
    s'.cmd_buf = s.cmd_buf ∧ s'.cmd_tokenv = s.cmd_tokenv := by
  unfold performAssertData at h
  split at h
  · cases h
  · split_ifs at h
    · exact some_frame s s' _ h (by dsimp only; split_ifs <;> exact ⟨rfl, rfl⟩)
    · exact some_frame s s' _ h ⟨rfl, rfl⟩

/-- `performWrite` leaves the command line alone. -/
theorem performWrite_frame (B : Board E) (s s' : Sys E) (h : performWrite B s = some s') :
    s'.cmd_buf = s.cmd_buf ∧ s'.cmd_tokenv = s.cmd_tokenv := by
  unfold performWrite at h
  split at h
  · cases h
  · dsimp only at h
    split_ifs at h
    · exact some_frame s s' _ h (by simp [Sys.print, Sys.println])
    · split at h
      · cases h
      · split_ifs at h <;>
          exact some_frame s s' _ h (by simp [Sys.print, Sys.println, restoreState, Sys.controlLoop])

/-- `performRead` leaves the command line alone. -/
theorem performRead_frame (B : Board E) (s s' : Sys E) (h : performRead B s = some s') :
    s'.cmd_buf = s.cmd_buf ∧ s'.cmd_tokenv = s.cmd_tokenv := by
  unfold performRead at h
  split at h
  · cases h
  · dsimp only at h
    split_ifs at h <;>
      exact some_frame s s' _ h (by simp [Sys.print, Sys.println, restoreState, Sys.controlLoop])

/-- None of the twelve actions touches `cmd_buf` or `cmd_tokenv`. -/
theorem commandActions_frame (B : Board E) (fuel : Nat) (s s' : Sys E)
    (a : Option (Sys E)) (ha : a ∈ commandActions B fuel s) (h : a = some s') :
    s'.cmd_buf = s.cmd_buf ∧ s'.cmd_tokenv = s.cmd_tokenv := by
  simp only [commandActions, List.mem_cons, List.not_mem_nil, or_false] at ha
  rcases ha with ha | ha | ha | ha | ha | ha | ha | ha | ha | ha | ha | ha <;> rw [ha] at h
  · exact some_frame s s' _ h (by simp [printHelp_spec])
  · exact some_frame s s' _ h (by simp [Sys.print, Sys.println])
  · exact some_frame s s' _ h (by simp [Sys.print, Sys.println])
  · exact performStepCommand_frame B fuel _ s s' h
  · exact performStepCommand_frame B fuel _ s s' h
  · exact some_frame s s' _ h (by simp [Sys.print, Sys.println])
  · exact some_frame s s' _ h (by simp [Sys.print, Sys.println])
  · exact some_frame s s' _ h (by simp [Sys.print, Sys.println])
  · exact performAssertAddress_frame B s s' h
  · exact performAssertData_frame B s s' h
  · exact performWrite_frame B s s' h
  · exact performRead_frame B s s' h

/-- No command touches `cmd_buf` or `cmd_tokenv`. -/
theorem dispatch_frame (B : Board E) (fuel : Nat) (cmd : List Nat) (n : Nat) (s s' : Sys E)
    (h : dispatch B fuel cmd n s = some s') :
    s'.cmd_buf = s.cmd_buf ∧ s'.cmd_tokenv = s.cmd_tokenv := by
  rw [dispatch_firstMatch] at h
  rcases firstMatch_mem ((commandConds cmd n).zip (commandActions B fuel s))
    (some (printHelp (s.println (bytes "unknown command")))) with hd | ⟨x, hx, hx2⟩
  · rw [hd] at h
    exact some_frame s s' _ h (by simp [printHelp_spec, Sys.println])
  · rw [hx2] at h
    exact commandActions_frame B fuel s s' x.2 (List.of_mem_zip hx).2 h

/-- `startSerialPrompt` leaves a state that holds the empty line. -/
theorem startSerialPrompt_holds (s : Sys E) (r : SerialState × Sys E)
    (hl : s.cmd_buf.length = 32) (htv : s.cmd_tokenv.length = 6)
    (h : startSerialPrompt s = some r) : HoldsLine r.2 := by
  rw [startSerialPrompt_spec s (by omega), Option.some.injEq] at h
  subst h
  refine ⟨by simp [hl], htv, [], s.cmd_buf.tail, ?_, rfl, by simp⟩
  rcases hb : s.cmd_buf with _ | ⟨a, t⟩
  · rw [hb] at hl; simp at hl
  · simp

/-- `processCommand` leaves a state that holds the empty line. -/
theorem processCommand_holds (B : Board E) (fuel : Nat) (s : Sys E) (r : SerialState × Sys E)
    (hs : HoldsLine s) (h : processCommand B fuel s = some r) : HoldsLine r.2 := by
  obtain ⟨hl, htv, line, rest, hbuf, hcl, hnz⟩ := hs
  obtain ⟨st, hst, -, -, -, -, -, htvl, hbl, -⟩ :=
    tokenizeCmdBuf_spec s line rest hbuf hcl hnz htv
  unfold processCommand at h
  rw [hst] at h
  dsimp only at h
  split at h
  · cases h
  · split at h
    · cases h
    · rename_i s1 hbody
      have hframe : s1.cmd_buf = st.cmd_buf ∧ s1.cmd_tokenv = st.cmd_tokenv := by
        split_ifs at hbody
        · exact some_frame st s1 _ hbody (by simp [printHelp_spec])
        · split at hbody
          · cases hbody
          · exact dispatch_frame B fuel _ _ st s1 hbody
      exact startSerialPrompt_holds s1 r (by rw [hframe.1, hbl, hl]) (by rw [hframe.2, htvl]) h

/-- An `int` index that is a natural number. -/
theorem setAtInt_nat {α : Type} (l : List α) (i : Nat) (v : α) :
    setAtInt l (i : Int) v = setAt l i v := by
  simp [setAtInt]

/-- One input byte keeps the invariant of the line editor. -/
theorem readingCommandState_holds (B : Board E) (fuel : Nat) (s : Sys E) (ch : Nat)
    (r : SerialState × Sys E) (hs : HoldsLine s)
    (h : readingCommandState B fuel s ch = some r) : HoldsLine r.2 := by
  have hs' := hs
  obtain ⟨hl, htv, line, rest, hbuf, hcl, hnz⟩ := hs'
  unfold readingCommandState at h
  by_cases hbs : ch = 8 ∨ ch = 127
  · rw [if_pos hbs] at h
    by_cases hpos : s.cmd_len > 0
    · rw [if_pos hpos] at h
      dsimp only [Sys.write] at h
      have hne : line ≠ [] := by
        rintro rfl
        simp [hcl] at hpos
      obtain ⟨l', x, rfl⟩ : ∃ l' x, line = l' ++ [x] :=
        ⟨line.dropLast, line.getLast hne, (List.dropLast_append_getLast hne).symm⟩
      have hidx : s.cmd_len - 1 = ((l'.length : Nat) : Int) := by
        rw [hcl]; simp
      have hset : setAtInt s.cmd_buf (s.cmd_len - 1) 0 = some (l' ++ 0 :: 0 :: rest) := by
        rw [hidx, setAtInt_nat, hbuf]
        have := setAt_after l' x 0 (0 :: rest)
        simpa using this
      rw [hset] at h
      rw [Option.some.injEq] at h
      subst h
      refine ⟨?_, htv, l', 0 :: rest, rfl, hidx, fun c hc => hnz c (by simp [hc])⟩
      have := hl
      rw [hbuf] at this
      simpa using this
    · rw [if_neg hpos, Option.some.injEq] at h
      subst h
      exact hs
  · rw [if_neg hbs] at h
    by_cases hsub : ch = 10 ∨ ch = 13
    · rw [if_pos hsub] at h
      exact processCommand_holds B fuel (s.println (bytes "")) r hs h
    · rw [if_neg hsub] at h
      by_cases hctl : ch < 0x20
      · rw [if_pos hctl, Option.some.injEq] at h
        subst h
        exact hs
      · rw [if_neg hctl] at h
        by_cases hroom : s.cmd_len < MAX_CMD_LEN
        · rw [if_pos hroom] at h
          have hlen32 : line.length + 1 + rest.length = 32 := by
            have := hl
            rw [hbuf] at this
            simp only [List.length_append, List.length_cons] at this
            omega
          have hn30 : line.length < 31 := by
            simp only [MAX_CMD_LEN, hcl] at hroom
            omega
          obtain ⟨r0, rest', rfl⟩ : ∃ r0 rest', rest = r0 :: rest' := by
            rcases rest with _ | ⟨r0, rest'⟩
            · simp at hlen32; omega
            · exact ⟨r0, rest', rfl⟩
          have hset1 : setAtInt s.cmd_buf s.cmd_len ch = some (line ++ ch :: r0 :: rest') := by
            rw [hcl, setAtInt_nat, hbuf]
            exact setAt_after line 0 ch (r0 :: rest')
          have hset2 : setAtInt (line ++ ch :: r0 :: rest') (s.cmd_len + 1) 0 =
              some ((line ++ [ch]) ++ 0 :: rest') := by
            have hidx : s.cmd_len + 1 = (((line ++ [ch]).length : Nat) : Int) := by
              rw [hcl]; simp
            rw [hidx, setAtInt_nat]
            have := setAt_after (line ++ [ch]) r0 0 rest'
            simpa using this
          rw [hset1] at h
          dsimp only at h
          rw [hset2] at h
          dsimp only at h
          rw [Option.some.injEq] at h
          subst h
          refine ⟨?_, htv, line ++ [ch], rest', rfl, ?_, ?_⟩
          · show (line ++ [ch] ++ 0 :: rest').length = 32
            simp at hlen32 ⊢; omega
          · show s.cmd_len + 1 = _
            rw [hcl]; simp
          · intro c hc
            rcases List.mem_append.1 hc with hc | hc
            · exact hnz c hc
            · simp only [List.mem_singleton] at hc
              omega
        · rw [if_neg hroom, Option.some.injEq] at h
          subst h
          exact hs

/-- Any sequence of input bytes keeps the invariant of the line editor. -/
theorem feed_holds (B : Board E) (fuel : Nat) (input : List Nat) :
    ∀ (s s' : Sys E), HoldsLine s → feed B fuel s input = some s' → HoldsLine s' := by
  induction input with
  | nil =>
    intro s s' hs h
    simp only [feed, Option.some.injEq] at h
    subst h; exact hs
  | cons ch rest ih =>
    intro s s' hs h
    simp only [feed] at h
    split at h
    · cases h
    · rename_i st s1 hstep
      exact ih s1 s' (readingCommandState_holds B fuel s ch _ hs hstep) h

/-- C19: from the state `startSerialPrompt` establishes, after any sequence of
input bytes the interpreter has worked off, `cmd_buf[cmd_len]` is NUL and no
byte before it is; and in such a state `tokenizeCmdBuf` returns, that is, every
access to `cmd_buf` was at an index below 32 and every access to `cmd_tokenv`
at an index below 6, and every token it records starts below the old length and
has its NUL at an index of at most 31. -/
theorem line_editor_keeps_tokenizer_inside (B : Board E) (fuel : Nat) (s0 s1 s : Sys E)
    (st : SerialState) (input : List Nat)
    (hl : s0.cmd_buf.length = 32) (htv : s0.cmd_tokenv.length = 6)
    (h0 : startSerialPrompt s0 = some (st, s1)) (hrun : feed B fuel s1 input = some s) :
    ∃ n : Nat, s.cmd_len = n ∧ n ≤ 31 ∧ s.cmd_buf.length = 32 ∧ s.cmd_tokenv.length = 6 ∧
      s.cmd_buf[n]? = some 0 ∧ (∀ i, i < n → ∃ c, s.cmd_buf[i]? = some c ∧ c ≠ 0) ∧
      ∃ s', tokenizeCmdBuf s = some s' ∧ s'.cmd_buf.length = 32 ∧ s'.cmd_tokenv.length = 6 ∧
        ∀ i, i < ((runs (s.cmd_buf.take n)).take 5).length →
          ∃ p w, s'.cmd_tokenv[i]? = some (some p) ∧ p < n ∧
            cstr s'.cmd_buf p = some w ∧ p + w.length ≤ 31 := by
  have hs1 : HoldsLine s1 := startSerialPrompt_holds s0 (st, s1) hl htv h0
  obtain ⟨hl', htv', line, rest, hbuf, hcl, hnz⟩ := feed_holds B fuel input s1 s hs1 hrun
  have hlen : line.length + 1 + rest.length = 32 := by
    have := hl'
    rw [hbuf] at this
    simp only [List.length_append, List.length_cons] at this
    omega
  obtain ⟨s', hs', -, -, -, -, -, htvl, hbl, htok, -, -⟩ :=
    tokenizeCmdBuf_spec s line rest hbuf hcl hnz htv'
  have htake : s.cmd_buf.take line.length = line := by
    rw [hbuf]; simp
  refine ⟨line.length, hcl, by omega, hl', htv', ?_, ?_, s', hs', by rw [hbl, hl'], htvl, ?_⟩
  · rw [hbuf]; exact getElem?_after line 0 rest
  · intro i hi
    obtain ⟨c, hc⟩ : ∃ c, (line)[i]? = some c := ⟨_, List.getElem?_eq_getElem hi⟩
    refine ⟨c, ?_, hnz c (List.getElem?_mem hc)⟩
    rw [hbuf, List.getElem?_append_left hi]
    exact hc
  · intro i hi
    rw [htake] at hi
    obtain ⟨p, hp1, hp2, hp3, hp4⟩ := htok i _ (List.getElem?_eq_getElem hi)
    exact ⟨p, _, hp1, hp3, hp2, by omega⟩

theorem line_editor_keeps_tokenizer_inside_witness :
    ∃ s1 s, startSerialPrompt (sysEditing () []) = some (SerialState.readingCommandState, s1) ∧
      feed (stubBoard 0) 2 s1 (bytes "cycle\r" ++ List.replicate 31 97 ++ [98]) = some s ∧
      s.cmd_len = 31 ∧ s.cmd_buf[31]? = some 0 ∧
      ∃ s', tokenizeCmdBuf s = some s' ∧
        ∃ p w, s'.cmd_tokenv[0]? = some (some p) ∧ p < 31 ∧
          cstr s'.cmd_buf p = some w ∧ p + w.length ≤ 31 := by
  obtain ⟨⟨st, s1⟩, h1⟩ := Option.isSome_iff_exists.1
    (by decide : (startSerialPrompt (sysEditing () ([] : List Nat))).isSome = true)
  cases st
  have e : s1 = ((startSerialPrompt (sysEditing () ([] : List Nat))).get (by decide)).2 := by
    simp [h1]
  have hsome : (feed (stubBoard 0) 2 s1
      (bytes "cycle\r" ++ List.replicate 31 97 ++ [98])).isSome = true := by
    rw [e]; decide
  obtain ⟨s, h2⟩ := Option.isSome_iff_exists.1 hsome
  have hc : s.cmd_len = 31 := by
    have h3 : (feed (stubBoard 0) 2 s1
        (bytes "cycle\r" ++ List.replicate 31 97 ++ [98])).map (fun x => x.cmd_len) =
        some 31 := by
      rw [e]; decide
    rw [h2] at h3
    simpa using h3
  have hr : 0 < ((runs (s.cmd_buf.take 31)).take 5).length := by
    have h3 : (feed (stubBoard 0) 2 s1
        (bytes "cycle\r" ++ List.replicate 31 97 ++ [98])).map
        (fun x => ((runs (x.cmd_buf.take 31)).take 5).length) = some 1 := by
      rw [e]; decide
    rw [h2] at h3
    simp only [Option.map_some', Option.some.injEq] at h3
    omega
  obtain ⟨n, hn, -, -, -, hz, -, s', hs', -, -, htok⟩ :=
    line_editor_keeps_tokenizer_inside (stubBoard 0) 2 (sysEditing () []) s1 s _ _
      (by decide) (by decide) h1 h2
  have hn31 : n = 31 := by
    rw [hc] at hn
    exact_mod_cast hn.symm
  subst hn31
  exact ⟨s1, s, h1, h2, hc, hz, s', hs', htok 0 hr⟩

end Buri
